import Mathlib

/-!
Verification of the geometry core of `src/renderer/webgl/RectangleRenderer.ts`:
the background run batcher (`updateBackgrounds`, `_updateRectangle`,
`_addRectangle`), the viewport clear rectangle (`_updateViewportRectangle`) and
the selection geometry builder (`updateSelection`).

Shallow embedding conventions:
- JS `Float32Array` buffers are `List ℚ`; a write `a[i] = v` is `List.set`,
  which like a typed-array store is a no-op when `i` is out of bounds.
- JS numbers used as pixel coordinates are `ℚ`; row/column indices that can be
  negative (`currentStartX` starts at `-1`, viewport rows can be negative) are
  `ℤ`; grid sizes are `ℕ`.
- The fallible path of `_updateRectangle` (dereferencing `color` when no color
  was resolved) is an `Option` that is `none` exactly on that null dereference.
- `rgba >> n & 0xFF` is `rgba / 2 ^ n % 256` (exact for the 32-bit color words
  the renderer stores).
-/

namespace RectangleRenderer

/-- One RGBA color word, as stored in `IColor.rgba` (a 32-bit value). -/
structure Color where
  rgba : ℕ
deriving DecidableEq

/-- The slice of `IColorManager` read by this file: foreground, background and
the 256-entry ansi palette (`ansi i` is `none` where the palette array has no
entry, modelling a JS out-of-bounds / missing element read). -/
structure ColorManager where
  foreground : Color
  background : Color
  ansi : ℕ → Option Color

/-- The slice of `IRenderDimensions` read by this file. -/
structure Dims where
  scaledCellWidth : ℚ
  scaledCellHeight : ℚ
deriving DecidableEq

/-- Modelled from the spec: `DEFAULT_COLOR` from `atlas/Types.ts` (not under
`src/`); the sentinel color code that emits no rectangle, distinct from the
palette range 0–255. -/
def DEFAULT_COLOR : ℕ := 256

/-- Modelled from the spec: `INVERTED_DEFAULT_COLOR` from `atlas/Types.ts`
(not under `src/`); the sentinel that resolves to the foreground color. -/
def INVERTED_DEFAULT_COLOR : ℕ := 257

/-- Modelled from the spec: `is256Color` from `atlas/CharAtlasUtils.ts` (not
under `src/`); true on the indexed-palette range 0–255. -/
def is256Color (colorCode : ℕ) : Bool := colorCode < 256

/-- `INDICES_PER_RECTANGLE` from the source: 8 floats per rectangle record. -/
def INDICES_PER_RECTANGLE : ℕ := 8

/-- `INITIAL_BUFFER_RECTANGLE_CAPACITY = 20 * INDICES_PER_RECTANGLE`. -/
def INITIAL_BUFFER_RECTANGLE_CAPACITY : ℕ := 20 * INDICES_PER_RECTANGLE

/-- Modelled from the spec: `expandFloat32Array` from `WebglUtils.ts` (not
under `src/`): reallocate to a buffer at least `max` long (grow-by-doubling or
grow-to-fit, whichever is larger), copying existing contents; fresh slots of a
new typed array are zero. -/
def expandFloat32Array (source : List ℚ) (max : ℕ) : List ℚ :=
  (List.range (Nat.max (source.length * 2) max)).map (fun i => source.getD i 0)

/-- Modelled from the spec: `fill` from `common/TypedArrayUtils.ts` (not under
`src/`): overwrite every slot from index `start` to the end with `value`. -/
def fill (array : List ℚ) (value : ℚ) (start : ℕ) : List ℚ :=
  array.take start ++ (array.drop start).map (fun _ => value)

/-- JS `TypedArray.prototype.set(values)` (no offset): overwrite the prefix of
`array` with `values` (callers never pass `values` longer than `array`). -/
def typedArraySet {α : Type} (array : List α) (values : List α) : List α :=
  values ++ array.drop values.length

/-- The `IVertices` record: the flat attribute buffer plus the count of
logically valid rectangle records. -/
structure IVertices where
  attributes : List ℚ
  count : ℕ
deriving DecidableEq

/-- The `ISelectionVertices` record: 10 control vertices of 4 floats each and
the 16-slot outline index array. -/
structure ISelectionVertices where
  vertices : List ℚ
  outlineIndices : List ℕ
deriving DecidableEq

/-- The slice of `ISelectionRenderModel` read by `updateSelection`. -/
structure ISelectionRenderModel where
  hasSelection : Bool
  viewportStartRow : ℤ
  viewportEndRow : ℤ
  viewportCappedStartRow : ℤ
  viewportCappedEndRow : ℤ
  startCol : ℤ
  endCol : ℤ
deriving DecidableEq

/-- The color-resolution conditional at the head of `_updateRectangle`:
`INVERTED_DEFAULT_COLOR` resolves to the foreground, palette indices resolve
through `colors.ansi`, everything else leaves `color` null (`none`). -/
def resolveColor (cm : ColorManager) (bg : ℕ) : Option Color :=
  if bg = INVERTED_DEFAULT_COLOR then some cm.foreground
  else if is256Color bg then cm.ansi bg
  else none

/-- `_addRectangle`: store the 8 floats of one rectangle record at
`offset .. offset+7`. -/
def _addRectangle (array : List ℚ) (offset : ℕ) (x1 y1 width height r g b a : ℚ) :
    List ℚ :=
  array.set offset x1 |>.set (offset + 1) y1 |>.set (offset + 2) width
    |>.set (offset + 3) height |>.set (offset + 4) r |>.set (offset + 5) g
    |>.set (offset + 6) b |>.set (offset + 7) a

/-- `_addRectangleFloat`: store one rectangle record whose color is already a
4-float array. -/
def _addRectangleFloat (array : List ℚ) (offset : ℕ) (x1 y1 width height : ℚ)
    (color : List ℚ) : List ℚ :=
  _addRectangle array offset x1 y1 width height (color.getD 0 0) (color.getD 1 0)
    (color.getD 2 0) (color.getD 3 0)

/-- `_colorToFloat32Array`: split an rgba word into 4 floats in 0..1. -/
def _colorToFloat32Array (color : Color) : List ℚ :=
  [ ((color.rgba / 2 ^ 24 % 256 : ℕ) : ℚ) / 255,
    ((color.rgba / 2 ^ 16 % 256 : ℕ) : ℚ) / 255,
    ((color.rgba / 2 ^ 8 % 256 : ℕ) : ℚ) / 255,
    ((color.rgba % 256 : ℕ) : ℚ) / 255 ]

/-- `_updateViewportRectangle`: write the screen-clearing rectangle into slot 0
of the attribute buffer, sized `cols*cellWidth` by `rows*cellHeight`, colored
with the cached background float array `bgFloat`. -/
def _updateViewportRectangle (termCols termRows : ℕ) (dims : Dims)
    (bgFloat : List ℚ) (attributes : List ℚ) : List ℚ :=
  _addRectangleFloat attributes 0 0 0
    ((termCols : ℚ) * dims.scaledCellWidth)
    ((termRows : ℚ) * dims.scaledCellHeight) bgFloat

/-- `onResize` calls `_updateViewportRectangle` with the cached `_bgFloat`. -/
def onResize (termCols termRows : ℕ) (dims : Dims) (bgFloat : List ℚ)
    (attributes : List ℚ) : List ℚ :=
  _updateViewportRectangle termCols termRows dims bgFloat attributes

/-- `onThemeChanged` refreshes the cached colors (`_updateCachedColors`) and
then calls `_updateViewportRectangle`, so the slot-0 color is the freshly
resolved background. -/
def onThemeChanged (cm : ColorManager) (termCols termRows : ℕ) (dims : Dims)
    (attributes : List ℚ) : List ℚ :=
  _updateViewportRectangle termCols termRows dims
    (_colorToFloat32Array cm.background) attributes

/-- `_updateRectangle`: resolve the run color, grow the buffer when the slot at
`offset` would not fit (growth target `rows*cols*INDICES_PER_RECTANGLE`), then
store the record. `none` is the null dereference of `color` when no color was
resolved. -/
def _updateRectangle (cm : ColorManager) (dims : Dims) (termRows termCols : ℕ)
    (attributes : List ℚ) (offset : ℕ) (bg : ℕ) (startX endX : ℤ) (y : ℕ) :
    Option (List ℚ) :=
  let color : Option Color := resolveColor cm bg
  let attributes :=
    if attributes.length < offset + 4 then
      expandFloat32Array attributes (termRows * termCols * INDICES_PER_RECTANGLE)
    else attributes
  match color with
  | none => none
  | some c =>
    let x1 := (startX : ℚ) * dims.scaledCellWidth
    let y1 := (y : ℚ) * dims.scaledCellHeight
    let r := ((c.rgba / 2 ^ 24 % 256 : ℕ) : ℚ) / 255
    let g := ((c.rgba / 2 ^ 16 % 256 : ℕ) : ℚ) / 255
    let b := ((c.rgba / 2 ^ 8 % 256 : ℕ) : ℚ) / 255
    some (_addRectangle attributes offset x1 y1
      (((endX - startX : ℤ) : ℚ) * dims.scaledCellWidth) dims.scaledCellHeight
      r g b 1)

/-- The background color code of cell `(x, y)`:
`model.cells[((y*cols + x) * 4) + 2]`. -/
def bgOf (cells : ℕ → ℕ) (termCols y x : ℕ) : ℕ :=
  cells (((y * termCols) + x) * 4 + 2)

/-- One step of the inner column loop of `updateBackgrounds`. The accumulator
is the vertices record (whose `count` field carries the local
`rectangleCount`) together with `currentStartX` and `currentBg`. -/
def updateBgCell (cm : ColorManager) (dims : Dims) (termRows termCols : ℕ)
    (cells : ℕ → ℕ) (y : ℕ) (acc : IVertices × ℤ × ℕ) (x : ℕ) :
    Option (IVertices × ℤ × ℕ) :=
  let (vertices, currentStartX, currentBg) := acc
  let bg := bgOf cells termCols y x
  if bg ≠ currentBg then
    if currentBg ≠ DEFAULT_COLOR then
      let offset := vertices.count * INDICES_PER_RECTANGLE
      match _updateRectangle cm dims termRows termCols vertices.attributes offset
          currentBg currentStartX (x : ℤ) y with
      | none => none
      | some attrs =>
        some (⟨attrs, vertices.count + 1⟩, ((x : ℤ), bg))
    else
      some (vertices, ((x : ℤ), bg))
  else
    some acc

/-- The trailing-run flush after the column loop of `updateBackgrounds`
(the `if (currentBg !== DEFAULT_COLOR)` block at the end of each row). -/
def updateBgFlush (cm : ColorManager) (dims : Dims) (termRows termCols : ℕ)
    (y : ℕ) (acc : IVertices × ℤ × ℕ) : Option IVertices :=
  let (vertices, currentStartX, currentBg) := acc
  if currentBg ≠ DEFAULT_COLOR then
    let offset := vertices.count * INDICES_PER_RECTANGLE
    match _updateRectangle cm dims termRows termCols vertices.attributes offset
        currentBg currentStartX (termCols : ℤ) y with
    | none => none
    | some attrs => some ⟨attrs, vertices.count + 1⟩
  else
    some vertices

/-- One row of `updateBackgrounds`: scan the columns, then flush the trailing
run if it is still open. -/
def updateBgRow (cm : ColorManager) (dims : Dims) (termRows termCols : ℕ)
    (cells : ℕ → ℕ) (vertices : IVertices) (y : ℕ) : Option IVertices :=
  (List.range termCols).foldlM (updateBgCell cm dims termRows termCols cells y)
      (vertices, ((-1 : ℤ), DEFAULT_COLOR)) >>=
    updateBgFlush cm dims termRows termCols y

/-- `updateBackgrounds`: rebuild rectangle records for every maximal horizontal
run of non-default background color, row-major; `rectangleCount` starts at 1
(slot 0 is the viewport clear rectangle) and is stored into `count` at the
end. The incoming `count` is ignored, exactly as in the source. -/
def updateBackgrounds (cm : ColorManager) (dims : Dims) (termRows termCols : ℕ)
    (cells : ℕ → ℕ) (vertices : IVertices) : Option IVertices :=
  (List.range termRows).foldlM (updateBgRow cm dims termRows termCols cells)
    ⟨vertices.attributes, 1⟩

/-- `updateSelection`: with no selection, zero the vertex buffer and return;
otherwise clip the columns against the viewport and build either the
column-select rectangle (4 vertices, tail zero-filled) or the range-select
staircase (10 vertices) with its case-selected outline index sequence. -/
def updateSelection (termCols : ℕ) (dims : Dims) (model : ISelectionRenderModel)
    (columnSelectMode : Bool) (sel : ISelectionVertices) : ISelectionVertices :=
  if !model.hasSelection then
    { sel with vertices := fill sel.vertices 0 0 }
  else
    let w := dims.scaledCellWidth
    let h := dims.scaledCellHeight
    let startRow := model.viewportCappedStartRow
    let endRow := model.viewportCappedEndRow
    let startCol : ℤ :=
      if model.viewportStartRow = startRow then model.startCol else 0
    let endCol : ℤ :=
      if model.viewportEndRow = endRow then model.endCol else (termCols : ℤ)
    if columnSelectMode then
      let vertices := typedArraySet sel.vertices [
        w * (startCol : ℚ), h * (startRow : ℚ), 1, 1,
        w * (endCol : ℚ), h * (startRow : ℚ), -1, 1,
        w * (startCol : ℚ), h * ((endRow + 1 : ℤ) : ℚ), 1, 1,
        w * (endCol : ℚ), h * ((endRow + 1 : ℤ) : ℚ), -1, 1]
      { vertices := fill vertices 0 (4 * 4),
        outlineIndices := typedArraySet sel.outlineIndices
          [0, 1, 1, 3, 3, 2, 2, 0, 0, 0, 0, 0, 0, 0, 0, 0] }
    else
      let startRowEndCol : ℤ :=
        if startRow = endRow then model.endCol else (termCols : ℤ)
      let middleRowsCount : ℤ := max (endRow - startRow - 1) 0
      let v0x := startCol
      let v0y := startRow
      let v4x : ℤ := 0
      let v4y := v0y + 1
      let v6x := startRowEndCol
      let v6y := v4y + middleRowsCount
      let v9x := endCol
      let v9y := endRow + 1
      { vertices := typedArraySet sel.vertices [
          w * (v0x : ℚ), h * (v0y : ℚ), 1, 1,
          w * (v6x : ℚ), h * (v0y : ℚ), -1, 1,
          w * (v0x : ℚ), h * (v4y : ℚ), 1, 1,
          w * (v6x : ℚ), h * (v4y : ℚ), -1, 1,
          w * (v4x : ℚ), h * (v4y : ℚ), 1, 1,
          w * (v4x : ℚ), h * (v6y : ℚ), 1, 1,
          w * (v6x : ℚ), h * (v6y : ℚ), -1, -1,
          w * (v9x : ℚ), h * (v6y : ℚ), -1, -1,
          w * (v4x : ℚ), h * (v9y : ℚ), 1, -1,
          w * (v9x : ℚ), h * (v9y : ℚ), -1, -1],
        outlineIndices :=
          if endRow - startRow = 0 then
            typedArraySet sel.outlineIndices
              [0, 1, 1, 3, 3, 2, 2, 0, 0, 0, 0, 0, 0, 0, 0, 0]
          else if endRow - startRow = 1 ∧ startCol > endCol then
            typedArraySet sel.outlineIndices
              [0, 1, 1, 3, 3, 2, 2, 0, 5, 7, 7, 9, 9, 8, 8, 5]
          else
            typedArraySet sel.outlineIndices
              [0, 1, 1, 6, 6, 7, 7, 9, 9, 8, 8, 4, 4, 2, 2, 0] }

/-! Specification-side decomposition of `updateBackgrounds`.

The scan of one row is refactored (and proved equal below) into: first compute
the list of maximal runs the loop emits, then write them sequentially. All
claims about the rectangle buffer are proved through this bridge. -/

/-- One emitted background run: row, start column (an `ℤ` because the scan
variable `currentStartX` is), exclusive end column, and the raw color code. -/
structure Run where
  y : ℕ
  startX : ℤ
  endX : ℕ
  color : ℕ
deriving DecidableEq

/-- The runs the column loop of `updateBackgrounds` emits while scanning the
cells `xs` of row `y` in state (`sx` = `currentStartX`, `cbg` = `currentBg`),
including the trailing flush at column `flushX`. -/
def rowRunsAux (bg : ℕ → ℕ) (y flushX : ℕ) : List ℕ → ℤ → ℕ → List Run
  | [], sx, cbg => if cbg = DEFAULT_COLOR then [] else [⟨y, sx, flushX, cbg⟩]
  | x :: xs, sx, cbg =>
    if bg x = cbg then rowRunsAux bg y flushX xs sx cbg
    else if cbg = DEFAULT_COLOR then rowRunsAux bg y flushX xs (x : ℤ) (bg x)
    else ⟨y, sx, x, cbg⟩ :: rowRunsAux bg y flushX xs (x : ℤ) (bg x)

/-- All runs emitted for row `y`. -/
def rowRuns (bg : ℕ → ℕ) (y termCols : ℕ) : List Run :=
  rowRunsAux bg y termCols (List.range termCols) (-1) DEFAULT_COLOR

/-- All runs emitted by one `updateBackgrounds` call, in emission order. -/
def gridRuns (cells : ℕ → ℕ) (termRows termCols : ℕ) : List Run :=
  (List.range termRows).flatMap (fun y => rowRuns (bgOf cells termCols y) y termCols)

/-- Write a list of runs into consecutive rectangle slots via
`_updateRectangle`, starting at slot `v.count`. -/
def writeRuns (cm : ColorManager) (dims : Dims) (termRows termCols : ℕ) :
    IVertices → List Run → Option IVertices
  | v, [] => some v
  | v, r :: rs =>
    match _updateRectangle cm dims termRows termCols v.attributes
        (v.count * INDICES_PER_RECTANGLE) r.color r.startX (r.endX : ℤ) r.y with
    | none => none
    | some attrs => writeRuns cm dims termRows termCols ⟨attrs, v.count + 1⟩ rs

/-- The 8 floats of rectangle slot `k` of a buffer. -/
def slotFloats (a : List ℚ) (k : ℕ) : List ℚ :=
  [a.getD (8 * k) 0, a.getD (8 * k + 1) 0, a.getD (8 * k + 2) 0,
   a.getD (8 * k + 3) 0, a.getD (8 * k + 4) 0, a.getD (8 * k + 5) 0,
   a.getD (8 * k + 6) 0, a.getD (8 * k + 7) 0]

/-- The 8 floats `_updateRectangle` stores for a run whose color resolves. -/
def encodeRun (cm : ColorManager) (dims : Dims) (r : Run) : List ℚ :=
  let c := (resolveColor cm r.color).getD ⟨0⟩
  [ (r.startX : ℚ) * dims.scaledCellWidth,
    (r.y : ℚ) * dims.scaledCellHeight,
    (((r.endX : ℤ) - r.startX : ℤ) : ℚ) * dims.scaledCellWidth,
    dims.scaledCellHeight,
    ((c.rgba / 2 ^ 24 % 256 : ℕ) : ℚ) / 255,
    ((c.rgba / 2 ^ 16 % 256 : ℕ) : ℚ) / 255,
    ((c.rgba / 2 ^ 8 % 256 : ℕ) : ℚ) / 255,
    1 ]

/-- Cell `x` starts a maximal horizontal run of non-default color in its row:
its color is non-default and either it is the first column or the previous
cell's color differs. -/
def isRunStart (bg : ℕ → ℕ) (x : ℕ) : Bool :=
  (bg x != DEFAULT_COLOR) && ((x == 0) || (bg (x - 1) != bg x))

/-- Number of maximal horizontal runs of non-default color in one row. -/
def rowRunCount (bg : ℕ → ℕ) (termCols : ℕ) : ℕ :=
  ((List.range termCols).filter (isRunStart bg)).length

/-- Number of maximal horizontal runs of non-default color in the grid. -/
def runCountOf (cells : ℕ → ℕ) (termRows termCols : ℕ) : ℕ :=
  ((List.range termRows).map (fun y => rowRunCount (bgOf cells termCols y) termCols)).sum

/-- Every non-default cell color of the grid resolves to a color (the
precondition under which `_updateRectangle` cannot hit its null dereference).
-/
def ValidGrid (cm : ColorManager) (cells : ℕ → ℕ) (termRows termCols : ℕ) : Prop :=
  ∀ y < termRows, ∀ x < termCols,
    bgOf cells termCols y x = DEFAULT_COLOR ∨
      (resolveColor cm (bgOf cells termCols y x)).isSome

instance (cm : ColorManager) (cells : ℕ → ℕ) (termRows termCols : ℕ) :
    Decidable (ValidGrid cm cells termRows termCols) := by
  unfold ValidGrid; infer_instance

/-- The buffer invariant maintained across rectangle writes: at least one slot
is reserved, the valid prefix fits, and the length stays a multiple of 8. -/
def BufInv (v : IVertices) : Prop :=
  1 ≤ v.count ∧ v.count * 8 ≤ v.attributes.length ∧ v.attributes.length % 8 = 0

/-! Bridge: the row scan equals computing the run list and writing it. -/

lemma updateBgCell_apply (cm : ColorManager) (dims : Dims) (R C : ℕ) (cells : ℕ → ℕ)
    (y : ℕ) (v : IVertices) (sx : ℤ) (cbg : ℕ) (x : ℕ) :
    updateBgCell cm dims R C cells y (v, sx, cbg) x =
      if bgOf cells C y x = cbg then some (v, sx, cbg)
      else if cbg = DEFAULT_COLOR then some (v, (x : ℤ), bgOf cells C y x)
      else
        match _updateRectangle cm dims R C v.attributes
            (v.count * INDICES_PER_RECTANGLE) cbg sx (x : ℤ) y with
        | none => none
        | some attrs => some (⟨attrs, v.count + 1⟩, (x : ℤ), bgOf cells C y x) := by
  unfold updateBgCell
  by_cases h1 : bgOf cells C y x = cbg <;> simp [h1]

lemma writeRuns_append (cm : ColorManager) (dims : Dims) (R C : ℕ) :
    ∀ (l1 l2 : List Run) (v : IVertices),
    writeRuns cm dims R C v (l1 ++ l2) =
      (writeRuns cm dims R C v l1).bind (fun v2 => writeRuns cm dims R C v2 l2) := by
  intro l1
  induction l1 with
  | nil => intro l2 v; simp [writeRuns]
  | cons r rs ih =>
    intro l2 v
    simp only [List.cons_append, writeRuns]
    cases _updateRectangle cm dims R C v.attributes (v.count * INDICES_PER_RECTANGLE)
        r.color r.startX (r.endX : ℤ) r.y with
    | none => simp
    | some attrs => simp [ih]

lemma bridge_row_aux (cm : ColorManager) (dims : Dims) (R C : ℕ) (cells : ℕ → ℕ) (y : ℕ) :
    ∀ (xs : List ℕ) (v : IVertices) (sx : ℤ) (cbg : ℕ),
    (xs.foldlM (updateBgCell cm dims R C cells y) (v, sx, cbg)) >>=
        updateBgFlush cm dims R C y =
      writeRuns cm dims R C v (rowRunsAux (bgOf cells C y) y C xs sx cbg) := by
  intro xs
  induction xs with
  | nil =>
    intro v sx cbg
    rw [List.foldlM_nil]
    show updateBgFlush cm dims R C y (v, sx, cbg) = _
    unfold updateBgFlush rowRunsAux
    by_cases h : cbg = DEFAULT_COLOR
    · simp [h, writeRuns]
    · simp only [h, ne_eq, not_false_iff, if_true, if_false, ite_not]
      cases hE : _updateRectangle cm dims R C v.attributes (v.count * INDICES_PER_RECTANGLE)
          cbg sx (C : ℤ) y with
      | none => simp [writeRuns, hE, h]
      | some attrs => simp [writeRuns, hE, h]
  | cons x xs ih =>
    intro v sx cbg
    rw [List.foldlM_cons]
    show (updateBgCell cm dims R C cells y (v, sx, cbg) x >>= fun s =>
        xs.foldlM (updateBgCell cm dims R C cells y) s) >>= updateBgFlush cm dims R C y = _
    rw [bind_assoc, updateBgCell_apply]
    unfold rowRunsAux
    by_cases h1 : bgOf cells C y x = cbg
    · have h0 := ih v sx cbg
      simpa [h1] using h0
    · by_cases h2 : cbg = DEFAULT_COLOR
      · subst h2
        have h0 := ih v (x : ℤ) (bgOf cells C y x)
        simpa [h1] using h0
      · cases hE : _updateRectangle cm dims R C v.attributes
            (v.count * INDICES_PER_RECTANGLE) cbg sx (x : ℤ) y with
        | none => simp [h1, h2, hE, writeRuns]
        | some attrs =>
          have h0 := ih ⟨attrs, v.count + 1⟩ (x : ℤ) (bgOf cells C y x)
          simp only [h1, h2, hE, writeRuns, ne_eq, not_false_iff, if_true, if_false]
          simpa [h1, h2, hE, writeRuns] using h0

lemma bridge_row (cm : ColorManager) (dims : Dims) (R C : ℕ) (cells : ℕ → ℕ)
    (v : IVertices) (y : ℕ) :
    updateBgRow cm dims R C cells v y =
      writeRuns cm dims R C v (rowRuns (bgOf cells C y) y C) := by
  unfold updateBgRow rowRuns
  exact bridge_row_aux cm dims R C cells y (List.range C) v (-1) DEFAULT_COLOR

lemma bridge_rows (cm : ColorManager) (dims : Dims) (R C : ℕ) (cells : ℕ → ℕ) :
    ∀ (ys : List ℕ) (v : IVertices),
    ys.foldlM (updateBgRow cm dims R C cells) v =
      writeRuns cm dims R C v (ys.flatMap (fun y => rowRuns (bgOf cells C y) y C)) := by
  intro ys
  induction ys with
  | nil => intro v; simp [writeRuns]
  | cons y ys ih =>
    intro v
    rw [List.foldlM_cons, List.flatMap_cons, writeRuns_append]
    show updateBgRow cm dims R C cells v y >>= _ = _
    rw [bridge_row]
    cases writeRuns cm dims R C v (rowRuns (bgOf cells C y) y C) with
    | none => simp
    | some v2 => simp [ih]

lemma bridge_grid (cm : ColorManager) (dims : Dims) (R C : ℕ) (cells : ℕ → ℕ)
    (vertices : IVertices) :
    updateBackgrounds cm dims R C cells vertices =
      writeRuns cm dims R C ⟨vertices.attributes, 1⟩ (gridRuns cells R C) := by
  unfold updateBackgrounds gridRuns
  exact bridge_rows cm dims R C cells (List.range R) ⟨vertices.attributes, 1⟩


/-! Buffer index lemmas. -/

lemma length_expandFloat32Array (a : List ℚ) (m : ℕ) :
    (expandFloat32Array a m).length = max (a.length * 2) m := by
  simp [expandFloat32Array]

lemma getD_expandFloat32Array (a : List ℚ) (m i : ℕ) (h : i < a.length) :
    (expandFloat32Array a m).getD i 0 = a.getD i 0 := by
  have hmax : a.length ≤ Nat.max (a.length * 2) m :=
    le_trans (by omega) (Nat.le_max_left (a.length * 2) m)
  have hlt : i < (expandFloat32Array a m).length := by
    rw [length_expandFloat32Array]; exact lt_of_lt_of_le h hmax
  rw [List.getD_eq_getElem _ _ hlt]
  unfold expandFloat32Array at hlt ⊢
  simp only [List.getElem_map]
  rw [List.getElem_range]

lemma getD_set_self (a : List ℚ) (i : ℕ) (v : ℚ) (h : i < a.length) :
    (a.set i v).getD i 0 = v := by
  rw [List.getD_eq_getElem?_getD, List.getElem?_set]
  simp [h]

lemma getD_set_ne (a : List ℚ) (i j : ℕ) (v : ℚ) (h : ¬ i = j) :
    (a.set i v).getD j 0 = a.getD j 0 := by
  rw [List.getD_eq_getElem?_getD, List.getElem?_set, if_neg h,
    ← List.getD_eq_getElem?_getD]

lemma length_addRectangle (a : List ℚ) (off : ℕ) (x1 y1 w h r g b al : ℚ) :
    (_addRectangle a off x1 y1 w h r g b al).length = a.length := by
  simp [_addRectangle]

lemma getD_addRectangle_ne (a : List ℚ) (off : ℕ) (x1 y1 w h r g b al : ℚ) (j : ℕ)
    (hj : j < off ∨ off + 8 ≤ j) :
    (_addRectangle a off x1 y1 w h r g b al).getD j 0 = a.getD j 0 := by
  unfold _addRectangle
  rw [getD_set_ne _ _ _ _ (by omega), getD_set_ne _ _ _ _ (by omega),
    getD_set_ne _ _ _ _ (by omega), getD_set_ne _ _ _ _ (by omega),
    getD_set_ne _ _ _ _ (by omega), getD_set_ne _ _ _ _ (by omega),
    getD_set_ne _ _ _ _ (by omega), getD_set_ne _ _ _ _ (by omega)]

lemma getD_addRectangle_vals (a : List ℚ) (off : ℕ) (x1 y1 w h r g b al : ℚ)
    (hle : off + 8 ≤ a.length) :
    (_addRectangle a off x1 y1 w h r g b al).getD off 0 = x1 ∧
    (_addRectangle a off x1 y1 w h r g b al).getD (off + 1) 0 = y1 ∧
    (_addRectangle a off x1 y1 w h r g b al).getD (off + 2) 0 = w ∧
    (_addRectangle a off x1 y1 w h r g b al).getD (off + 3) 0 = h ∧
    (_addRectangle a off x1 y1 w h r g b al).getD (off + 4) 0 = r ∧
    (_addRectangle a off x1 y1 w h r g b al).getD (off + 5) 0 = g ∧
    (_addRectangle a off x1 y1 w h r g b al).getD (off + 6) 0 = b ∧
    (_addRectangle a off x1 y1 w h r g b al).getD (off + 7) 0 = al := by
  unfold _addRectangle
  refine ⟨?_, ?_, ?_, ?_, ?_, ?_, ?_, ?_⟩
  · rw [getD_set_ne _ _ _ _ (by omega), getD_set_ne _ _ _ _ (by omega),
      getD_set_ne _ _ _ _ (by omega), getD_set_ne _ _ _ _ (by omega),
      getD_set_ne _ _ _ _ (by omega), getD_set_ne _ _ _ _ (by omega),
      getD_set_ne _ _ _ _ (by omega),
      getD_set_self _ _ _ (by omega)]
  · rw [getD_set_ne _ _ _ _ (by omega), getD_set_ne _ _ _ _ (by omega),
      getD_set_ne _ _ _ _ (by omega), getD_set_ne _ _ _ _ (by omega),
      getD_set_ne _ _ _ _ (by omega), getD_set_ne _ _ _ _ (by omega),
      getD_set_self _ _ _ (by (try simp only [List.length_set]); omega)]
  · rw [getD_set_ne _ _ _ _ (by omega), getD_set_ne _ _ _ _ (by omega),
      getD_set_ne _ _ _ _ (by omega), getD_set_ne _ _ _ _ (by omega),
      getD_set_ne _ _ _ _ (by omega),
      getD_set_self _ _ _ (by (try simp only [List.length_set]); omega)]
  · rw [getD_set_ne _ _ _ _ (by omega), getD_set_ne _ _ _ _ (by omega),
      getD_set_ne _ _ _ _ (by omega), getD_set_ne _ _ _ _ (by omega),
      getD_set_self _ _ _ (by (try simp only [List.length_set]); omega)]
  · rw [getD_set_ne _ _ _ _ (by omega), getD_set_ne _ _ _ _ (by omega),
      getD_set_ne _ _ _ _ (by omega),
      getD_set_self _ _ _ (by (try simp only [List.length_set]); omega)]
  · rw [getD_set_ne _ _ _ _ (by omega), getD_set_ne _ _ _ _ (by omega),
      getD_set_self _ _ _ (by (try simp only [List.length_set]); omega)]
  · rw [getD_set_ne _ _ _ _ (by omega),
      getD_set_self _ _ _ (by (try simp only [List.length_set]); omega)]
  · rw [getD_set_self _ _ _ (by (try simp only [List.length_set]); omega)]


/-! Write-phase master lemma: growing never loses data, every record lands in
its slot, and earlier slots are untouched. -/

lemma BufInv_mk (a : List ℚ) (c : ℕ) (h1 : 1 ≤ c) (h2 : c * 8 ≤ a.length)
    (h3 : a.length % 8 = 0) : BufInv ⟨a, c⟩ :=
  ⟨h1, h2, h3⟩

lemma growStep_spec (a : List ℚ) (off m : ℕ) (hoff8 : off % 8 = 0) (hk : 8 ≤ off)
    (hlen : off ≤ a.length) (hmod : a.length % 8 = 0) (hm : m % 8 = 0) :
    off + 8 ≤ (if a.length < off + 4 then expandFloat32Array a m else a).length ∧
    (if a.length < off + 4 then expandFloat32Array a m else a).length % 8 = 0 ∧
    a.length ≤ (if a.length < off + 4 then expandFloat32Array a m else a).length ∧
    (∀ i < a.length,
      (if a.length < off + 4 then expandFloat32Array a m else a).getD i 0 = a.getD i 0) ∧
    (a.length < off + 4 →
      m ≤ (if a.length < off + 4 then expandFloat32Array a m else a).length) := by
  by_cases hg : a.length < off + 4
  · simp only [if_pos hg]
    have h1 := Nat.le_max_left (a.length * 2) m
    have h2 := Nat.le_max_right (a.length * 2) m
    rcases max_choice (a.length * 2) m with hch | hch <;>
      rw [length_expandFloat32Array, hch] <;> rw [hch] at h1 h2 <;>
      exact ⟨by omega, by omega, by omega,
        fun i hi => getD_expandFloat32Array a m i hi, fun h => by omega⟩
  · simp only [if_neg hg]
    exact ⟨by omega, hmod, le_refl _, fun i _ => trivial, fun h => absurd h hg⟩

lemma slotFloats_congr (a b : List ℚ) (k : ℕ)
    (h : ∀ i, 8 * k ≤ i → i < 8 * k + 8 → a.getD i 0 = b.getD i 0) :
    slotFloats a k = slotFloats b k := by
  simp only [slotFloats]
  rw [h (8 * k) (by omega) (by omega), h (8 * k + 1) (by omega) (by omega),
    h (8 * k + 2) (by omega) (by omega), h (8 * k + 3) (by omega) (by omega),
    h (8 * k + 4) (by omega) (by omega), h (8 * k + 5) (by omega) (by omega),
    h (8 * k + 6) (by omega) (by omega), h (8 * k + 7) (by omega) (by omega)]

lemma _updateRectangle_spec (cm : ColorManager) (dims : Dims) (R C : ℕ)
    (v : IVertices) (r : Run) (hres : (resolveColor cm r.color).isSome)
    (hinv : BufInv v) :
    ∃ attrs, _updateRectangle cm dims R C v.attributes
        (v.count * INDICES_PER_RECTANGLE) r.color r.startX (r.endX : ℤ) r.y =
          some attrs ∧
      BufInv ⟨attrs, v.count + 1⟩ ∧
      v.attributes.length ≤ attrs.length ∧
      (∀ i < v.count * 8, attrs.getD i 0 = v.attributes.getD i 0) ∧
      slotFloats attrs v.count = encodeRun cm dims r ∧
      (v.attributes.length < v.count * INDICES_PER_RECTANGLE + 4 →
        R * C * INDICES_PER_RECTANGLE ≤ attrs.length) := by
  obtain ⟨c, hc⟩ := Option.isSome_iff_exists.mp hres
  obtain ⟨hk, hlen, hmod⟩ := hinv
  simp only [_updateRectangle, hc, INDICES_PER_RECTANGLE]
  obtain ⟨hg1, hg2, hg3, hg4, hg5⟩ :=
    growStep_spec v.attributes (v.count * 8) (R * C * 8) (by omega) (by omega)
      (by omega) hmod (by omega)
  refine ⟨_, rfl, BufInv_mk _ _ (by omega) ?_ ?_, ?_, ?_, ?_, ?_⟩
  · rw [length_addRectangle]; omega
  · rw [length_addRectangle]; exact hg2
  · rw [length_addRectangle]; exact hg3
  · intro i hi
    rw [getD_addRectangle_ne _ _ _ _ _ _ _ _ _ _ _ (Or.inl (by omega))]
    exact hg4 i (by omega)
  · obtain ⟨e0, e1, e2, e3, e4, e5, e6, e7⟩ := getD_addRectangle_vals
      (if v.attributes.length < v.count * 8 + 4 then
        expandFloat32Array v.attributes (R * C * 8)
      else v.attributes)
      (v.count * 8)
      ((r.startX : ℚ) * dims.scaledCellWidth) ((r.y : ℚ) * dims.scaledCellHeight)
      ((((r.endX : ℤ) - r.startX : ℤ) : ℚ) * dims.scaledCellWidth)
      dims.scaledCellHeight
      (((c.rgba / 2 ^ 24 % 256 : ℕ) : ℚ) / 255)
      (((c.rgba / 2 ^ 16 % 256 : ℕ) : ℚ) / 255)
      (((c.rgba / 2 ^ 8 % 256 : ℕ) : ℚ) / 255) 1 (by omega)
    simp only [slotFloats, encodeRun, hc, Option.getD_some]
    rw [Nat.mul_comm 8 v.count]
    rw [e0, e1, e2, e3, e4, e5, e6, e7]
  · intro hgrow
    rw [length_addRectangle]
    exact hg5 hgrow

lemma writeRuns_spec (cm : ColorManager) (dims : Dims) (R C : ℕ) :
    ∀ (rs : List Run) (v : IVertices), BufInv v →
    (∀ r ∈ rs, (resolveColor cm r.color).isSome) →
    ∃ v2, writeRuns cm dims R C v rs = some v2 ∧
      v2.count = v.count + rs.length ∧ BufInv v2 ∧
      v.attributes.length ≤ v2.attributes.length ∧
      (∀ i < v.count * 8, v2.attributes.getD i 0 = v.attributes.getD i 0) ∧
      ∀ k (hk2 : k < rs.length),
        slotFloats v2.attributes (v.count + k) = encodeRun cm dims rs[k] := by
  intro rs
  induction rs with
  | nil =>
    intro v hinv _
    exact ⟨v, rfl, by simp, hinv, le_refl _, fun i _ => rfl, by simp⟩
  | cons r rs ih =>
    intro v hinv hres
    obtain ⟨attrs, hE, hinv2, hlen2, hpres2, hslot2, _⟩ :=
      _updateRectangle_spec cm dims R C v r (hres r (by simp)) hinv
    obtain ⟨v2, hw, hcount, hinv3, hlen3, hpres3, hslot3⟩ :=
      ih ⟨attrs, v.count + 1⟩ hinv2 (fun r2 h2 => hres r2 (by simp [h2]))
    have hcount2 : v2.count = v.count + 1 + rs.length := hcount
    have hpres3b : ∀ i < (v.count + 1) * 8,
        v2.attributes.getD i 0 = attrs.getD i 0 := hpres3
    have hslot3b : ∀ k (hk2 : k < rs.length),
        slotFloats v2.attributes (v.count + 1 + k) = encodeRun cm dims rs[k] := hslot3
    refine ⟨v2, ?_, ?_, hinv3, ?_, ?_, ?_⟩
    · rw [writeRuns, hE]
      exact hw
    · rw [hcount2, List.length_cons]
      omega
    · exact le_trans hlen2 hlen3
    · intro i hi
      rw [hpres3b i (by omega), hpres2 i hi]
    · intro k hk2
      cases k with
      | zero =>
        have hs : slotFloats v2.attributes (v.count + 0) = slotFloats attrs v.count := by
          refine slotFloats_congr _ _ _ (fun i h1 h2 => ?_)
          rw [Nat.add_zero] at h1 h2
          exact hpres3b i (by omega)
        rw [hs]
        simpa using hslot2
      | succ k2 =>
        have hs := hslot3b k2 (by simp at hk2; omega)
        have harr : v.count + (k2 + 1) = v.count + 1 + k2 := by omega
        rw [harr]
        simpa using hs


/-! Run list lemmas: colors, and the count of emitted runs equals the count
of maximal-run start positions. -/

lemma rowRunsAux_color (bg : ℕ → ℕ) (y fe : ℕ) :
    ∀ (xs : List ℕ) (sx : ℤ) (cbg : ℕ), ∀ r ∈ rowRunsAux bg y fe xs sx cbg,
      r.color ≠ DEFAULT_COLOR ∧ (r.color = cbg ∨ ∃ x ∈ xs, r.color = bg x) := by
  intro xs
  induction xs with
  | nil =>
    intro sx cbg r hr
    unfold rowRunsAux at hr
    by_cases h : cbg = DEFAULT_COLOR
    · simp [h] at hr
    · simp [h] at hr
      subst hr
      exact ⟨h, Or.inl rfl⟩
  | cons x xs ih =>
    intro sx cbg r hr
    unfold rowRunsAux at hr
    by_cases h1 : bg x = cbg
    · simp only [if_pos h1] at hr
      rcases ih sx cbg r hr with ⟨hd, hc | ⟨x2, hx2, he⟩⟩
      · exact ⟨hd, Or.inl hc⟩
      · exact ⟨hd, Or.inr ⟨x2, List.mem_cons_of_mem x hx2, he⟩⟩
    · simp only [if_neg h1] at hr
      by_cases h2 : cbg = DEFAULT_COLOR
      · simp only [if_pos h2] at hr
        rcases ih (x : ℤ) (bg x) r hr with ⟨hd, hc | ⟨x2, hx2, he⟩⟩
        · exact ⟨hd, Or.inr ⟨x, List.mem_cons_self x xs, hc⟩⟩
        · exact ⟨hd, Or.inr ⟨x2, List.mem_cons_of_mem x hx2, he⟩⟩
      · simp only [if_neg h2, List.mem_cons] at hr
        rcases hr with hr | hr
        · subst hr
          exact ⟨h2, Or.inl rfl⟩
        · rcases ih (x : ℤ) (bg x) r hr with ⟨hd, hc | ⟨x2, hx2, he⟩⟩
          · exact ⟨hd, Or.inr ⟨x, List.mem_cons_self x xs, hc⟩⟩
          · exact ⟨hd, Or.inr ⟨x2, List.mem_cons_of_mem x hx2, he⟩⟩

lemma rowRunsAux_length (bg : ℕ → ℕ) (y fe : ℕ) :
    ∀ (n a : ℕ) (sx : ℤ) (cbg : ℕ),
    (rowRunsAux bg y fe (List.range' a n) sx cbg).length
      = ((List.range' a n).filter (fun x =>
          (bg x != DEFAULT_COLOR) &&
            (bg x != if x = a then cbg else bg (x - 1)))).length
        + (if cbg = DEFAULT_COLOR then 0 else 1) := by
  intro n
  induction n with
  | zero =>
    intro a sx cbg
    by_cases h : cbg = DEFAULT_COLOR <;> simp [rowRunsAux, h]
  | succ n ih =>
    intro a sx cbg
    rw [List.range'_succ]
    have hmem : ∀ x ∈ List.range' (a + 1) n, a + 1 ≤ x := by
      intro x hx
      rw [List.mem_range'] at hx
      obtain ⟨i, hi, rfl⟩ := hx
      omega
    unfold rowRunsAux
    by_cases h1 : bg a = cbg
    · simp only [if_pos h1]
      rw [ih (a + 1) sx cbg]
      have hfc : (List.range' (a + 1) n).filter
            (fun x => (bg x != DEFAULT_COLOR) &&
              (bg x != if x = a + 1 then cbg else bg (x - 1)))
          = (List.range' (a + 1) n).filter
            (fun x => (bg x != DEFAULT_COLOR) &&
              (bg x != if x = a then cbg else bg (x - 1))) := by
        apply List.filter_congr
        intro x hx
        have hax := hmem x hx
        by_cases hxa : x = a + 1
        · subst hxa
          simp [show ¬ (a + 1 = a) from by omega, h1]
        · simp [hxa, show ¬ (x = a) from by omega]
      rw [hfc, List.filter_cons]
      have hpa : ((bg a != DEFAULT_COLOR) &&
          (bg a != if a = a then cbg else bg (a - 1))) = false := by
        simp [h1]
      rw [hpa]
      simp
    · simp only [if_neg h1]
      have hfc : (List.range' (a + 1) n).filter
            (fun x => (bg x != DEFAULT_COLOR) &&
              (bg x != if x = a + 1 then bg a else bg (x - 1)))
          = (List.range' (a + 1) n).filter
            (fun x => (bg x != DEFAULT_COLOR) &&
              (bg x != if x = a then cbg else bg (x - 1))) := by
        apply List.filter_congr
        intro x hx
        have hax := hmem x hx
        by_cases hxa : x = a + 1
        · subst hxa
          simp [show ¬ (a + 1 = a) from by omega]
        · simp [hxa, show ¬ (x = a) from by omega]
      by_cases h2 : cbg = DEFAULT_COLOR
      · simp only [if_pos h2]
        rw [ih (a + 1) (a : ℤ) (bg a), hfc, List.filter_cons]
        have hbga : bg a ≠ DEFAULT_COLOR := by rw [h2] at h1; exact h1
        have hpa : ((bg a != DEFAULT_COLOR) &&
            (bg a != if a = a then cbg else bg (a - 1))) = true := by
          simp [hbga, h1]
        rw [hpa]
        simp [hbga, h2]
      · simp only [if_neg h2, List.length_cons]
        rw [ih (a + 1) (a : ℤ) (bg a), hfc, List.filter_cons]
        have hpa : ((bg a != DEFAULT_COLOR) &&
            (bg a != if a = a then cbg else bg (a - 1))) = (bg a != DEFAULT_COLOR) := by
          simp [h1]
        rw [hpa]
        by_cases h3 : bg a = DEFAULT_COLOR
        · simp [h3, h2]
        · simp [h3, h2]



lemma rowRuns_length (bg : ℕ → ℕ) (y C : ℕ) :
    (rowRuns bg y C).length = rowRunCount bg C := by
  unfold rowRuns rowRunCount
  rw [List.range_eq_range', rowRunsAux_length bg y C C 0 (-1) DEFAULT_COLOR,
    if_pos rfl, Nat.add_zero]
  congr 1
  apply List.filter_congr
  intro x hx
  by_cases h0 : x = 0
  · subst h0
    simp [isRunStart]
  · simp only [isRunStart, if_neg h0]
    rw [show (x == 0) = false from by simp [h0]]
    by_cases he : bg x = bg (x - 1)
    · simp [he]
    · have h2 : bg (x - 1) ≠ bg x := fun h => he h.symm
      rw [show (bg x != bg (x - 1)) = true from by simp [he],
        show (bg (x - 1) != bg x) = true from by simp [h2]]
      simp

lemma gridRuns_length (cells : ℕ → ℕ) (R C : ℕ) :
    (gridRuns cells R C).length = runCountOf cells R C := by
  unfold gridRuns runCountOf
  rw [List.length_flatMap]
  congr 1
  apply List.map_congr_left
  intro y _
  exact rowRuns_length (bgOf cells C y) y C


/-! Soundness, ordering and completeness of the emitted run lists. -/

/-- Soundness of one emitted run: it lies in row `y`, carries a non-default
color, and covers exactly cells of that color within the row bounds. -/
def RunSound (bg : ℕ → ℕ) (y cols : ℕ) (r : Run) : Prop :=
  r.y = y ∧ r.color ≠ DEFAULT_COLOR ∧
    ∃ s : ℕ, r.startX = (s : ℤ) ∧ s < r.endX ∧ r.endX ≤ cols ∧
      ∀ t, s ≤ t → t < r.endX → bg t = r.color

lemma rowRunsAux_spec (bg : ℕ → ℕ) (y cols : ℕ) :
    ∀ (n a : ℕ) (sx : ℤ) (cbg : ℕ), a + n = cols →
    (cbg ≠ DEFAULT_COLOR →
      ∃ m : ℕ, sx = (m : ℤ) ∧ m < a ∧ ∀ t, m ≤ t → t < a → bg t = cbg) →
    (∀ r ∈ rowRunsAux bg y cols (List.range' a n) sx cbg,
      RunSound bg y cols r ∧ (cbg ≠ DEFAULT_COLOR → sx ≤ r.startX) ∧
        (cbg = DEFAULT_COLOR → (a : ℤ) ≤ r.startX)) ∧
    List.Pairwise (fun r1 r2 => ((r1.endX : ℕ) : ℤ) ≤ r2.startX)
      (rowRunsAux bg y cols (List.range' a n) sx cbg) ∧
    (∀ x : ℕ, bg x ≠ DEFAULT_COLOR →
      ((cbg ≠ DEFAULT_COLOR ∧ sx ≤ (x : ℤ) ∧ x < a) ∨ (a ≤ x ∧ x < cols)) →
      ∃ r ∈ rowRunsAux bg y cols (List.range' a n) sx cbg,
        r.startX ≤ (x : ℤ) ∧ x < r.endX) := by
  intro n
  induction n with
  | zero =>
    intro a sx cbg h Hsx
    rw [List.range'_zero]
    by_cases hd : cbg = DEFAULT_COLOR
    · unfold rowRunsAux
      rw [if_pos hd]
      refine ⟨by simp, List.Pairwise.nil, ?_⟩
      intro x _ hcase
      rcases hcase with ⟨hne, _, _⟩ | ⟨h1, h2⟩
      · exact absurd hd hne
      · omega
    · unfold rowRunsAux
      rw [if_neg hd]
      obtain ⟨m, e1, e2, e3⟩ := Hsx hd
      refine ⟨?_, List.pairwise_singleton _ _, ?_⟩
      · intro r hr
        rw [List.mem_singleton] at hr
        subst hr
        exact ⟨⟨rfl, hd, m, e1, (by omega : m < cols), (le_refl cols),
          fun t ht1 ht2 => e3 t ht1 (by have ht2b : t < cols := ht2; omega)⟩,
          fun _ => le_refl _, fun hc => absurd hc hd⟩
      · intro x hbgx hcase
        rcases hcase with ⟨_, hsx, hxa⟩ | ⟨h1, h2⟩
        · exact ⟨⟨y, sx, cols, cbg⟩, List.mem_singleton_self _, hsx,
            (by omega : x < cols)⟩
        · omega
  | succ n ih =>
    intro a sx cbg h Hsx
    rw [List.range'_succ]
    unfold rowRunsAux
    by_cases h1 : bg a = cbg
    · rw [if_pos h1]
      have Hsx2 : cbg ≠ DEFAULT_COLOR →
          ∃ m : ℕ, sx = (m : ℤ) ∧ m < a + 1 ∧
            ∀ t, m ≤ t → t < a + 1 → bg t = cbg := by
        intro hd
        obtain ⟨m, e1, e2, e3⟩ := Hsx hd
        refine ⟨m, e1, by omega, fun t ht1 ht2 => ?_⟩
        by_cases hta : t = a
        · subst hta; exact h1
        · exact e3 t ht1 (by omega)
      obtain ⟨ih1, ih2, ih3⟩ := ih (a + 1) sx cbg (by omega) Hsx2
      refine ⟨?_, ih2, ?_⟩
      · intro r hr
        obtain ⟨hs, hneq, hdef⟩ := ih1 r hr
        refine ⟨hs, hneq, fun hd => ?_⟩
        have := hdef hd
        omega
      · intro x hbgx hcase
        rcases hcase with ⟨hd, hsx, hxa⟩ | ⟨hax, hxc⟩
        · exact ih3 x hbgx (Or.inl ⟨hd, hsx, by omega⟩)
        · by_cases hxa2 : x = a
          · subst hxa2
            have hd : cbg ≠ DEFAULT_COLOR := by rw [← h1]; exact hbgx
            obtain ⟨m, e1, e2, e3⟩ := Hsx hd
            refine ih3 x hbgx (Or.inl ⟨hd, ?_, by omega⟩)
            rw [e1]
            omega
          · exact ih3 x hbgx (Or.inr ⟨by omega, hxc⟩)
    · rw [if_neg h1]
      have Hsx2 : bg a ≠ DEFAULT_COLOR →
          ∃ m2 : ℕ, ((a : ℕ) : ℤ) = (m2 : ℤ) ∧ m2 < a + 1 ∧
            ∀ t, m2 ≤ t → t < a + 1 → bg t = bg a := by
        intro _
        exact ⟨a, rfl, by omega, fun t ht1 ht2 => by rw [show t = a from by omega]⟩
      obtain ⟨ih1, ih2, ih3⟩ := ih (a + 1) (a : ℤ) (bg a) (by omega) Hsx2
      have hrest_ge : ∀ r ∈ rowRunsAux bg y cols (List.range' (a + 1) n) (a : ℤ) (bg a),
          ((a : ℕ) : ℤ) ≤ r.startX := by
        intro r hr
        obtain ⟨_, hneq, hdef⟩ := ih1 r hr
        by_cases hba : bg a = DEFAULT_COLOR
        · have := hdef hba
          omega
        · exact hneq hba
      by_cases h2 : cbg = DEFAULT_COLOR
      · rw [if_pos h2]
        refine ⟨?_, ih2, ?_⟩
        · intro r hr
          obtain ⟨hs, _, _⟩ := ih1 r hr
          exact ⟨hs, fun hd => absurd h2 hd, fun _ => hrest_ge r hr⟩
        · intro x hbgx hcase
          rcases hcase with ⟨hd, _, _⟩ | ⟨hax, hxc⟩
          · exact absurd h2 hd
          · by_cases hxa2 : x = a
            · subst hxa2
              exact ih3 x hbgx (Or.inl ⟨hbgx, le_refl _, by omega⟩)
            · exact ih3 x hbgx (Or.inr ⟨by omega, hxc⟩)
      · rw [if_neg h2]
        obtain ⟨m, e1, e2, e3⟩ := Hsx h2
        have hhead : RunSound bg y cols ⟨y, sx, a, cbg⟩ :=
          ⟨rfl, h2, m, e1, e2, (by omega : a ≤ cols), e3⟩
        refine ⟨?_, ?_, ?_⟩
        · intro r hr
          rcases List.mem_cons.mp hr with hr1 | hr2
          · subst hr1
            exact ⟨hhead, fun _ => le_refl sx, fun hd => absurd hd h2⟩
          · obtain ⟨hs, _, _⟩ := ih1 r hr2
            refine ⟨hs, fun _ => ?_, fun hd => absurd hd h2⟩
            have := hrest_ge r hr2
            rw [e1]
            omega
        · rw [List.pairwise_cons]
          exact ⟨fun r hr => hrest_ge r hr, ih2⟩
        · intro x hbgx hcase
          rcases hcase with ⟨_, hsx, hxa⟩ | ⟨hax, hxc⟩
          · exact ⟨⟨y, sx, a, cbg⟩, List.mem_cons_self _ _, hsx, hxa⟩
          · by_cases hxa2 : x = a
            · subst hxa2
              obtain ⟨r, hr, hc⟩ := ih3 x hbgx (Or.inl ⟨hbgx, le_refl _, by omega⟩)
              exact ⟨r, List.mem_cons_of_mem _ hr, hc⟩
            · obtain ⟨r, hr, hc⟩ := ih3 x hbgx (Or.inr ⟨by omega, hxc⟩)
              exact ⟨r, List.mem_cons_of_mem _ hr, hc⟩



lemma rowRuns_spec (bg : ℕ → ℕ) (y C : ℕ) :
    (∀ r ∈ rowRuns bg y C, RunSound bg y C r) ∧
    List.Pairwise (fun r1 r2 => ((r1.endX : ℕ) : ℤ) ≤ r2.startX) (rowRuns bg y C) ∧
    (∀ x : ℕ, x < C → bg x ≠ DEFAULT_COLOR →
      ∃ r ∈ rowRuns bg y C, r.startX ≤ (x : ℤ) ∧ x < r.endX) := by
  unfold rowRuns
  rw [List.range_eq_range']
  obtain ⟨h1, h2, h3⟩ := rowRunsAux_spec bg y C C 0 (-1) DEFAULT_COLOR (by omega)
    (fun hd => absurd rfl hd)
  exact ⟨fun r hr => (h1 r hr).1, h2,
    fun x hx hbgx => h3 x hbgx (Or.inr ⟨by omega, hx⟩)⟩

lemma gridRuns_mem (cells : ℕ → ℕ) (R C : ℕ) (r : Run) :
    r ∈ gridRuns cells R C ↔
      ∃ y < R, r ∈ rowRuns (bgOf cells C y) y C := by
  unfold gridRuns
  rw [List.mem_flatMap]
  constructor
  · rintro ⟨y, hy, hr⟩
    exact ⟨y, List.mem_range.mp hy, hr⟩
  · rintro ⟨y, hy, hr⟩
    exact ⟨y, List.mem_range.mpr hy, hr⟩

lemma gridRuns_sound (cells : ℕ → ℕ) (R C : ℕ) :
    ∀ r ∈ gridRuns cells R C, r.y < R ∧ RunSound (bgOf cells C r.y) r.y C r := by
  intro r hr
  obtain ⟨y, hy, hrow⟩ := (gridRuns_mem cells R C r).mp hr
  have hs := (rowRuns_spec (bgOf cells C y) y C).1 r hrow
  have hry : r.y = y := hs.1
  rw [hry]
  exact ⟨hy, hs⟩

lemma gridRuns_complete (cells : ℕ → ℕ) (R C : ℕ) :
    ∀ y2 x : ℕ, y2 < R → x < C → bgOf cells C y2 x ≠ DEFAULT_COLOR →
      ∃ r ∈ gridRuns cells R C, r.y = y2 ∧ r.startX ≤ (x : ℤ) ∧ x < r.endX := by
  intro y2 x hy hx hbgx
  obtain ⟨r, hr, hc⟩ := (rowRuns_spec (bgOf cells C y2) y2 C).2.2 x hx hbgx
  have hry : r.y = y2 := ((rowRuns_spec (bgOf cells C y2) y2 C).1 r hr).1
  exact ⟨r, (gridRuns_mem cells R C r).mpr ⟨y2, hy, hr⟩, hry, hc⟩

lemma gridRuns_pairwise (cells : ℕ → ℕ) (R C : ℕ) :
    List.Pairwise (fun r1 r2 : Run => r1.y < r2.y ∨
      (r1.y = r2.y ∧ ((r1.endX : ℕ) : ℤ) ≤ r2.startX)) (gridRuns cells R C) := by
  unfold gridRuns
  have hgen : ∀ ys : List ℕ, List.Pairwise (· < ·) ys →
      List.Pairwise (fun r1 r2 : Run => r1.y < r2.y ∨
        (r1.y = r2.y ∧ ((r1.endX : ℕ) : ℤ) ≤ r2.startX))
        (ys.flatMap (fun y => rowRuns (bgOf cells C y) y C)) := by
    intro ys
    induction ys with
    | nil => intro _; simp
    | cons y ys ih =>
      intro hp
      rw [List.pairwise_cons] at hp
      rw [List.flatMap_cons, List.pairwise_append]
      refine ⟨?_, ih hp.2, ?_⟩
      · have hrow := (rowRuns_spec (bgOf cells C y) y C).2.1
        have hys : ∀ r ∈ rowRuns (bgOf cells C y) y C, r.y = y :=
          fun r hr => ((rowRuns_spec (bgOf cells C y) y C).1 r hr).1
        refine List.Pairwise.imp_of_mem ?_ hrow
        intro r1 r2 h1 h2 hrel
        exact Or.inr ⟨(hys r1 h1).trans (hys r2 h2).symm, hrel⟩
      · intro r1 h1 r2 h2
        have hy1 : r1.y = y :=
          ((rowRuns_spec (bgOf cells C y) y C).1 r1 h1).1
        obtain ⟨y2, hy2, hr2⟩ := List.mem_flatMap.mp h2
        have hy2r : r2.y = y2 :=
          ((rowRuns_spec (bgOf cells C y2) y2 C).1 r2 hr2).1
        left
        rw [hy1, hy2r]
        exact hp.1 y2 hy2
  exact hgen (List.range R) (List.pairwise_lt_range R)


/-! Claims about the background pass: run count, idempotence, color
resolution totality, and the viewport clear rectangle in slot 0. -/

lemma gridRuns_resolvable (cm : ColorManager) (cells : ℕ → ℕ) (R C : ℕ)
    (hv : ValidGrid cm cells R C) :
    ∀ r ∈ gridRuns cells R C, (resolveColor cm r.color).isSome := by
  intro r hr
  obtain ⟨hy, hs⟩ := gridRuns_sound cells R C r hr
  obtain ⟨_, hcn, s, e1, e2, e3, e4⟩ := hs
  have hbg : bgOf cells C r.y s = r.color := e4 s (le_refl s) e2
  rcases hv r.y hy s (by omega) with hdef | hres
  · rw [hbg] at hdef
    exact absurd hdef hcn
  · rw [← hbg]
    exact hres

/-- Master description of `updateBackgrounds`: it succeeds on a resolvable
grid, the final count is `1 +` the number of emitted runs, the buffer
invariant holds, slot 0 is untouched, and slot `1 + k` holds the encoding of
the `k`-th run. -/
lemma updateBackgrounds_spec (cm : ColorManager) (dims : Dims) (R C : ℕ)
    (cells : ℕ → ℕ) (vertices : IVertices) (hv : ValidGrid cm cells R C)
    (hlen : 8 ≤ vertices.attributes.length)
    (hmod : vertices.attributes.length % 8 = 0) :
    ∃ v2, updateBackgrounds cm dims R C cells vertices = some v2 ∧
      v2.count = 1 + (gridRuns cells R C).length ∧ BufInv v2 ∧
      vertices.attributes.length ≤ v2.attributes.length ∧
      (∀ i < 8, v2.attributes.getD i 0 = vertices.attributes.getD i 0) ∧
      ∀ k (hk : k < (gridRuns cells R C).length),
        slotFloats v2.attributes (1 + k) = encodeRun cm dims (gridRuns cells R C)[k] := by
  rw [bridge_grid]
  obtain ⟨v2, hw, hcount, hinv, hlen2, hpres, hslot⟩ :=
    writeRuns_spec cm dims R C (gridRuns cells R C) ⟨vertices.attributes, 1⟩
      (BufInv_mk _ _ (le_refl 1) (by omega) hmod)
      (gridRuns_resolvable cm cells R C hv)
  have hcount2 : v2.count = 1 + (gridRuns cells R C).length := hcount
  have hlen3 : vertices.attributes.length ≤ v2.attributes.length := hlen2
  have hpres2 : ∀ i < 1 * 8, v2.attributes.getD i 0 = vertices.attributes.getD i 0 :=
    hpres
  have hslot2 : ∀ k (hk : k < (gridRuns cells R C).length),
      slotFloats v2.attributes (1 + k) = encodeRun cm dims (gridRuns cells R C)[k] :=
    hslot
  exact ⟨v2, hw, hcount2, hinv, hlen3, fun i hi => hpres2 i (by omega), hslot2⟩



/-- Test fixture: a color manager with white foreground, black background, and
a fully populated 256-entry palette whose entry 1 is opaque red. -/
def cmW : ColorManager :=
  ⟨⟨0xFFFFFFFF⟩, ⟨0x000000FF⟩,
    fun i => if i = 1 then some ⟨0xFF0000FF⟩
      else if i < 256 then some ⟨0x000000FF⟩ else none⟩

/-- Test fixture: a fresh attribute buffer of the initial capacity. -/
def vW : IVertices := ⟨List.replicate 160 0, 0⟩

/-- Test fixture: one row of four cells colored RED, RED, DEFAULT, BLUE
(palette codes 1, 1, 256, 2). -/
def cellsB : ℕ → ℕ :=
  fun i => if i = 2 then 1 else if i = 6 then 1 else if i = 14 then 2 else 256

/-- Claim C1: for every grid whose non-default colors resolve, after
`updateBackgrounds` the rectangle count equals 1 plus the number of maximal
horizontal runs of cells with non-default color; runs are counted per row by
their start cells (`isRunStart`), so a run is never split spuriously and runs
in adjacent rows never merge. -/
theorem updateBackgrounds_count_runs (cm : ColorManager) (dims : Dims)
    (R C : ℕ) (cells : ℕ → ℕ) (vertices : IVertices)
    (hv : ValidGrid cm cells R C) (hlen : 8 ≤ vertices.attributes.length)
    (hmod : vertices.attributes.length % 8 = 0) :
    (updateBackgrounds cm dims R C cells vertices).map IVertices.count =
      some (1 + runCountOf cells R C) := by
  obtain ⟨v2, hw, hcount, _⟩ :=
    updateBackgrounds_spec cm dims R C cells vertices hv hlen hmod
  rw [hw, Option.map_some']
  rw [hcount, gridRuns_length]

set_option maxRecDepth 8000 in
/-- Witness for C1 at the grid RED, RED, DEFAULT, BLUE: two runs, count 3. -/
theorem updateBackgrounds_count_runs_witness :
    ValidGrid cmW cellsB 1 4 ∧ 8 ≤ vW.attributes.length ∧
      vW.attributes.length % 8 = 0 ∧
      (updateBackgrounds cmW ⟨10, 20⟩ 1 4 cellsB vW).map IVertices.count =
        some (1 + runCountOf cellsB 1 4) :=
  ⟨by decide, by decide, by decide,
    updateBackgrounds_count_runs cmW ⟨10, 20⟩ 1 4 cellsB vW
      (by decide) (by decide) (by decide)⟩



lemma take_eq_of_getD (a b : List ℚ) (n : ℕ) (ha : n ≤ a.length) (hb : n ≤ b.length)
    (h : ∀ i < n, a.getD i 0 = b.getD i 0) : a.take n = b.take n := by
  apply List.ext_getElem
  · simp only [List.length_take]
    omega
  · intro i h1 h2
    rw [List.getElem_take, List.getElem_take]
    have hi : i < n := by
      simp only [List.length_take] at h1
      omega
    have h3 := h i hi
    rw [List.getD_eq_getElem a 0 (by omega), List.getD_eq_getElem b 0 (by omega)] at h3
    exact h3

lemma getD_eq_of_slotFloats_eq (a b : List ℚ) (k i : ℕ)
    (h : slotFloats a k = slotFloats b k) (h1 : 8 * k ≤ i) (h2 : i < 8 * k + 8) :
    a.getD i 0 = b.getD i 0 := by
  simp only [slotFloats, List.cons.injEq, and_true] at h
  obtain ⟨e0, e1, e2, e3, e4, e5, e6, e7⟩ := h
  have hcase : i = 8 * k ∨ i = 8 * k + 1 ∨ i = 8 * k + 2 ∨ i = 8 * k + 3 ∨
      i = 8 * k + 4 ∨ i = 8 * k + 5 ∨ i = 8 * k + 6 ∨ i = 8 * k + 7 := by omega
  rcases hcase with h | h | h | h | h | h | h | h <;> subst h <;> assumption

/-- Claim C7: running `updateBackgrounds` twice over the same grid, palette and
cell dimensions yields the same count and the same first `count * 8` floats,
whether or not the first call grew the backing buffer. -/
theorem updateBackgrounds_idempotent (cm : ColorManager) (dims : Dims)
    (R C : ℕ) (cells : ℕ → ℕ) (vertices : IVertices)
    (hv : ValidGrid cm cells R C) (hlen : 8 ≤ vertices.attributes.length)
    (hmod : vertices.attributes.length % 8 = 0) :
    ∃ v1 v2, updateBackgrounds cm dims R C cells vertices = some v1 ∧
      updateBackgrounds cm dims R C cells v1 = some v2 ∧
      v2.count = v1.count ∧
      v2.attributes.take (v1.count * 8) = v1.attributes.take (v1.count * 8) := by
  obtain ⟨v1, hw1, hcount1, ⟨hc1, hl1, hm1⟩, _, hpres1, hslot1⟩ :=
    updateBackgrounds_spec cm dims R C cells vertices hv hlen hmod
  obtain ⟨v2, hw2, hcount2, ⟨hc2, hl2, hm2⟩, _, hpres2, hslot2⟩ :=
    updateBackgrounds_spec cm dims R C cells v1 hv (by omega) hm1
  refine ⟨v1, v2, hw1, hw2, by omega, ?_⟩
  apply take_eq_of_getD _ _ _ (by omega) (by omega)
  intro i hi
  by_cases hi8 : i < 8
  · exact hpres2 i hi8
  · have hk1 : 1 ≤ i / 8 := by omega
    have hk2 : i / 8 < v1.count := by omega
    have hkr : i / 8 - 1 < (gridRuns cells R C).length := by omega
    have heq : slotFloats v2.attributes (i / 8) = slotFloats v1.attributes (i / 8) := by
      have ha := hslot1 (i / 8 - 1) hkr
      have hb := hslot2 (i / 8 - 1) hkr
      rw [show 1 + (i / 8 - 1) = i / 8 from by omega] at ha hb
      rw [ha, hb]
    exact getD_eq_of_slotFloats_eq _ _ (i / 8) i heq (by omega) (by omega)

set_option maxRecDepth 8000 in
/-- Witness for C7 at the grid RED, RED, DEFAULT, BLUE. -/
theorem updateBackgrounds_idempotent_witness :
    ValidGrid cmW cellsB 1 4 ∧
      (∃ v1 v2, updateBackgrounds cmW ⟨10, 20⟩ 1 4 cellsB vW = some v1 ∧
        updateBackgrounds cmW ⟨10, 20⟩ 1 4 cellsB v1 = some v2 ∧
        v2.count = v1.count ∧
        v2.attributes.take (v1.count * 8) = v1.attributes.take (v1.count * 8)) :=
  ⟨by decide,
    updateBackgrounds_idempotent cmW ⟨10, 20⟩ 1 4 cellsB vW
      (by decide) (by decide) (by decide)⟩

/-- Claim C8: when every cell code is `DEFAULT_COLOR`, `INVERTED_DEFAULT_COLOR`
or a palette index below 256 and the palette is fully populated, color
resolution cannot fail: `updateBackgrounds` completes (the null dereference of
`color` is unreachable), `INVERTED_DEFAULT_COLOR` resolves to the foreground,
palette codes resolve by lookup, and `DEFAULT_COLOR` never resolves. -/
theorem resolveColor_total (cm : ColorManager) (dims : Dims) (R C : ℕ)
    (cells : ℕ → ℕ) (vertices : IVertices)
    (hcodes : ∀ y < R, ∀ x < C, bgOf cells C y x = DEFAULT_COLOR ∨
      bgOf cells C y x = INVERTED_DEFAULT_COLOR ∨ bgOf cells C y x < 256)
    (hpal : ∀ i < 256, (cm.ansi i).isSome)
    (hlen : 8 ≤ vertices.attributes.length)
    (hmod : vertices.attributes.length % 8 = 0) :
    (updateBackgrounds cm dims R C cells vertices).isSome ∧
      resolveColor cm INVERTED_DEFAULT_COLOR = some cm.foreground ∧
      (∀ c < 256, resolveColor cm c = cm.ansi c) ∧
      resolveColor cm DEFAULT_COLOR = none := by
  have hres : ∀ c, c = INVERTED_DEFAULT_COLOR ∨ c < 256 →
      (resolveColor cm c).isSome := by
    intro c hc
    unfold resolveColor
    rcases hc with hc | hc
    · rw [if_pos hc]
      rfl
    · rw [if_neg (by simp only [INVERTED_DEFAULT_COLOR]; omega),
        if_pos (by simp [is256Color]; omega)]
      exact hpal c hc
  have hv : ValidGrid cm cells R C := by
    intro y hy x hx
    rcases hcodes y hy x hx with h | h | h
    · exact Or.inl h
    · exact Or.inr (hres _ (Or.inl h))
    · exact Or.inr (hres _ (Or.inr h))
  obtain ⟨v2, hw, _⟩ := updateBackgrounds_spec cm dims R C cells vertices hv hlen hmod
  refine ⟨by rw [hw]; rfl, ?_, ?_, ?_⟩
  · unfold resolveColor
    rw [if_pos rfl]
  · intro c hc
    unfold resolveColor
    rw [if_neg (by simp only [INVERTED_DEFAULT_COLOR]; omega),
      if_pos (by simp [is256Color]; omega)]
  · unfold resolveColor
    rw [if_neg (by simp [INVERTED_DEFAULT_COLOR, DEFAULT_COLOR]),
      if_neg (by simp [is256Color, DEFAULT_COLOR])]

set_option maxRecDepth 8000 in
/-- Witness for C8 at the grid RED, RED, DEFAULT, BLUE with the full palette
fixture. -/
theorem resolveColor_total_witness :
    (∀ y < 1, ∀ x < 4, bgOf cellsB 4 y x = DEFAULT_COLOR ∨
      bgOf cellsB 4 y x = INVERTED_DEFAULT_COLOR ∨ bgOf cellsB 4 y x < 256) ∧
      (∀ i < 256, (cmW.ansi i).isSome) ∧
      ((updateBackgrounds cmW ⟨10, 20⟩ 1 4 cellsB vW).isSome ∧
        resolveColor cmW INVERTED_DEFAULT_COLOR = some cmW.foreground ∧
        (∀ c < 256, resolveColor cmW c = cmW.ansi c) ∧
        resolveColor cmW DEFAULT_COLOR = none) :=
  ⟨by decide, by decide,
    resolveColor_total cmW ⟨10, 20⟩ 1 4 cellsB vW
      (by decide) (by decide) (by decide) (by decide)⟩



/-- Claim C9: slot 0 always holds the viewport clear rectangle. After
`onResize` (with a background cache matching the resolved background) or
`onThemeChanged`, slot 0 is the rectangle at the origin sized
`cols*cellWidth` by `rows*cellHeight` in the resolved background color; and
`updateBackgrounds` leaves the 8 floats of slot 0 unchanged (it writes only
slots 1 and up, and buffer growth copies existing contents). -/
theorem viewport_clear_slot0 (cm : ColorManager) (termCols termRows : ℕ)
    (dims : Dims) (attrs : List ℚ) (bgFloat : List ℚ) (cells : ℕ → ℕ)
    (vertices : IVertices) (hlen8 : 8 ≤ attrs.length)
    (hbg : bgFloat = _colorToFloat32Array cm.background)
    (hv : ValidGrid cm cells termRows termCols)
    (hlen : 8 ≤ vertices.attributes.length)
    (hmod : vertices.attributes.length % 8 = 0) :
    slotFloats (onResize termCols termRows dims bgFloat attrs) 0 =
      [0, 0, (termCols : ℚ) * dims.scaledCellWidth,
        (termRows : ℚ) * dims.scaledCellHeight] ++
        _colorToFloat32Array cm.background ∧
    slotFloats (onThemeChanged cm termCols termRows dims attrs) 0 =
      [0, 0, (termCols : ℚ) * dims.scaledCellWidth,
        (termRows : ℚ) * dims.scaledCellHeight] ++
        _colorToFloat32Array cm.background ∧
    ∃ v2, updateBackgrounds cm dims termRows termCols cells vertices = some v2 ∧
      slotFloats v2.attributes 0 = slotFloats vertices.attributes 0 := by
  have hslot : slotFloats (_updateViewportRectangle termCols termRows dims
      (_colorToFloat32Array cm.background) attrs) 0 =
      [0, 0, (termCols : ℚ) * dims.scaledCellWidth,
        (termRows : ℚ) * dims.scaledCellHeight] ++
        _colorToFloat32Array cm.background := by
    unfold _updateViewportRectangle _addRectangleFloat
    obtain ⟨e0, e1, e2, e3, e4, e5, e6, e7⟩ := getD_addRectangle_vals attrs 0
      0 0 ((termCols : ℚ) * dims.scaledCellWidth)
      ((termRows : ℚ) * dims.scaledCellHeight)
      ((_colorToFloat32Array cm.background).getD 0 0)
      ((_colorToFloat32Array cm.background).getD 1 0)
      ((_colorToFloat32Array cm.background).getD 2 0)
      ((_colorToFloat32Array cm.background).getD 3 0) (by omega)
    simp only [Nat.zero_add] at e1 e2 e3 e4 e5 e6 e7
    simp only [slotFloats, Nat.mul_zero, Nat.zero_add]
    rw [e0, e1, e2, e3, e4, e5, e6, e7]
    simp [_colorToFloat32Array]
  refine ⟨?_, ?_, ?_⟩
  · unfold onResize
    rw [hbg]
    exact hslot
  · unfold onThemeChanged
    exact hslot
  · obtain ⟨v2, hw, _, ⟨_, hl2, _⟩, _, hpres, _⟩ :=
      updateBackgrounds_spec cm dims termRows termCols cells vertices hv hlen hmod
    refine ⟨v2, hw, ?_⟩
    apply slotFloats_congr
    intro i hi1 hi2
    exact hpres i (by omega)

set_option maxRecDepth 8000 in
/-- Witness for C9 on a 160-float buffer and the RED, RED, DEFAULT, BLUE grid. -/
theorem viewport_clear_slot0_witness :
    8 ≤ (List.replicate 160 (0 : ℚ)).length ∧
      ValidGrid cmW cellsB 1 4 ∧
      (slotFloats (onResize 4 1 ⟨10, 20⟩ (_colorToFloat32Array cmW.background)
          (List.replicate 160 (0 : ℚ))) 0 =
        [0, 0, (4 : ℚ) * (10 : ℚ), (1 : ℚ) * (20 : ℚ)] ++
          _colorToFloat32Array cmW.background ∧
      slotFloats (onThemeChanged cmW 4 1 ⟨10, 20⟩ (List.replicate 160 (0 : ℚ))) 0 =
        [0, 0, (4 : ℚ) * (10 : ℚ), (1 : ℚ) * (20 : ℚ)] ++
          _colorToFloat32Array cmW.background ∧
      ∃ v2, updateBackgrounds cmW ⟨10, 20⟩ 1 4 cellsB vW = some v2 ∧
        slotFloats v2.attributes 0 = slotFloats vW.attributes 0) :=
  ⟨by decide, by decide,
    viewport_clear_slot0 cmW 4 1 ⟨10, 20⟩ (List.replicate 160 (0 : ℚ))
      (_colorToFloat32Array cmW.background) cellsB vW (by decide) rfl
      (by decide) (by decide) (by decide)⟩


/-! Claim C2: a bounds-checked copy of the background pass agrees with it. -/

/-- Specification-side instrumented copy of `_updateRectangle` for claim C2:
identical except that, after the growth step, it fails (`none`) instead of
performing a write any of whose 8 slots `offset .. offset+7` would fall out of
bounds (a typed-array store out of bounds is silently dropped, so the
uninstrumented code cannot observe it). -/
def _updateRectangleChecked (cm : ColorManager) (dims : Dims)
    (termRows termCols : ℕ) (attributes : List ℚ) (offset : ℕ) (bg : ℕ)
    (startX endX : ℤ) (y : ℕ) : Option (List ℚ) :=
  let color : Option Color := resolveColor cm bg
  let attributes :=
    if attributes.length < offset + 4 then
      expandFloat32Array attributes (termRows * termCols * INDICES_PER_RECTANGLE)
    else attributes
  if offset + 8 ≤ attributes.length then
    match color with
    | none => none
    | some c =>
      let x1 := (startX : ℚ) * dims.scaledCellWidth
      let y1 := (y : ℚ) * dims.scaledCellHeight
      let r := ((c.rgba / 2 ^ 24 % 256 : ℕ) : ℚ) / 255
      let g := ((c.rgba / 2 ^ 16 % 256 : ℕ) : ℚ) / 255
      let b := ((c.rgba / 2 ^ 8 % 256 : ℕ) : ℚ) / 255
      some (_addRectangle attributes offset x1 y1
        (((endX - startX : ℤ) : ℚ) * dims.scaledCellWidth) dims.scaledCellHeight
        r g b 1)
  else none

/-- The column-loop step of the instrumented background pass. -/
def updateBgCellChecked (cm : ColorManager) (dims : Dims) (termRows termCols : ℕ)
    (cells : ℕ → ℕ) (y : ℕ) (acc : IVertices × ℤ × ℕ) (x : ℕ) :
    Option (IVertices × ℤ × ℕ) :=
  let (vertices, currentStartX, currentBg) := acc
  let bg := bgOf cells termCols y x
  if bg ≠ currentBg then
    if currentBg ≠ DEFAULT_COLOR then
      let offset := vertices.count * INDICES_PER_RECTANGLE
      match _updateRectangleChecked cm dims termRows termCols vertices.attributes
          offset currentBg currentStartX (x : ℤ) y with
      | none => none
      | some attrs =>
        some (⟨attrs, vertices.count + 1⟩, ((x : ℤ), bg))
    else
      some (vertices, ((x : ℤ), bg))
  else
    some acc

/-- The trailing-run flush of the instrumented background pass. -/
def updateBgFlushChecked (cm : ColorManager) (dims : Dims) (termRows termCols : ℕ)
    (y : ℕ) (acc : IVertices × ℤ × ℕ) : Option IVertices :=
  let (vertices, currentStartX, currentBg) := acc
  if currentBg ≠ DEFAULT_COLOR then
    let offset := vertices.count * INDICES_PER_RECTANGLE
    match _updateRectangleChecked cm dims termRows termCols vertices.attributes
        offset currentBg currentStartX (termCols : ℤ) y with
    | none => none
    | some attrs => some ⟨attrs, vertices.count + 1⟩
  else
    some vertices

/-- One row of the instrumented background pass. -/
def updateBgRowChecked (cm : ColorManager) (dims : Dims) (termRows termCols : ℕ)
    (cells : ℕ → ℕ) (vertices : IVertices) (y : ℕ) : Option IVertices :=
  (List.range termCols).foldlM (updateBgCellChecked cm dims termRows termCols cells y)
      (vertices, ((-1 : ℤ), DEFAULT_COLOR)) >>=
    updateBgFlushChecked cm dims termRows termCols y

/-- The instrumented copy of `updateBackgrounds` for claim C2: identical
except every rectangle write is bounds-checked. -/
def updateBackgroundsChecked (cm : ColorManager) (dims : Dims)
    (termRows termCols : ℕ) (cells : ℕ → ℕ) (vertices : IVertices) :
    Option IVertices :=
  (List.range termRows).foldlM (updateBgRowChecked cm dims termRows termCols cells)
    ⟨vertices.attributes, 1⟩

/-- Sequential bounds-checked writes of a run list. -/
def writeRunsChecked (cm : ColorManager) (dims : Dims) (termRows termCols : ℕ) :
    IVertices → List Run → Option IVertices
  | v, [] => some v
  | v, r :: rs =>
    match _updateRectangleChecked cm dims termRows termCols v.attributes
        (v.count * INDICES_PER_RECTANGLE) r.color r.startX (r.endX : ℤ) r.y with
    | none => none
    | some attrs => writeRunsChecked cm dims termRows termCols ⟨attrs, v.count + 1⟩ rs

lemma updateBgCellChecked_apply (cm : ColorManager) (dims : Dims) (R C : ℕ)
    (cells : ℕ → ℕ) (y : ℕ) (v : IVertices) (sx : ℤ) (cbg : ℕ) (x : ℕ) :
    updateBgCellChecked cm dims R C cells y (v, sx, cbg) x =
      if bgOf cells C y x = cbg then some (v, sx, cbg)
      else if cbg = DEFAULT_COLOR then some (v, (x : ℤ), bgOf cells C y x)
      else
        match _updateRectangleChecked cm dims R C v.attributes
            (v.count * INDICES_PER_RECTANGLE) cbg sx (x : ℤ) y with
        | none => none
        | some attrs => some (⟨attrs, v.count + 1⟩, (x : ℤ), bgOf cells C y x) := by
  unfold updateBgCellChecked
  by_cases h1 : bgOf cells C y x = cbg <;> simp [h1]

lemma writeRunsChecked_append (cm : ColorManager) (dims : Dims) (R C : ℕ) :
    ∀ (l1 l2 : List Run) (v : IVertices),
    writeRunsChecked cm dims R C v (l1 ++ l2) =
      (writeRunsChecked cm dims R C v l1).bind
        (fun v2 => writeRunsChecked cm dims R C v2 l2) := by
  intro l1
  induction l1 with
  | nil => intro l2 v; simp [writeRunsChecked]
  | cons r rs ih =>
    intro l2 v
    simp only [List.cons_append, writeRunsChecked]
    cases _updateRectangleChecked cm dims R C v.attributes
        (v.count * INDICES_PER_RECTANGLE) r.color r.startX (r.endX : ℤ) r.y with
    | none => simp
    | some attrs => simp [ih]

lemma bridge_row_auxChecked (cm : ColorManager) (dims : Dims) (R C : ℕ)
    (cells : ℕ → ℕ) (y : ℕ) :
    ∀ (xs : List ℕ) (v : IVertices) (sx : ℤ) (cbg : ℕ),
    (xs.foldlM (updateBgCellChecked cm dims R C cells y) (v, sx, cbg)) >>=
        updateBgFlushChecked cm dims R C y =
      writeRunsChecked cm dims R C v (rowRunsAux (bgOf cells C y) y C xs sx cbg) := by
  intro xs
  induction xs with
  | nil =>
    intro v sx cbg
    rw [List.foldlM_nil]
    show updateBgFlushChecked cm dims R C y (v, sx, cbg) = _
    unfold updateBgFlushChecked rowRunsAux
    by_cases h : cbg = DEFAULT_COLOR
    · simp [h, writeRunsChecked]
    · simp only [h, ne_eq, not_false_iff, if_true, if_false, ite_not]
      cases hE : _updateRectangleChecked cm dims R C v.attributes
          (v.count * INDICES_PER_RECTANGLE) cbg sx (C : ℤ) y with
      | none => simp [writeRunsChecked, hE, h]
      | some attrs => simp [writeRunsChecked, hE, h]
  | cons x xs ih =>
    intro v sx cbg
    rw [List.foldlM_cons]
    show (updateBgCellChecked cm dims R C cells y (v, sx, cbg) x >>= fun s =>
        xs.foldlM (updateBgCellChecked cm dims R C cells y) s) >>=
        updateBgFlushChecked cm dims R C y = _
    rw [bind_assoc, updateBgCellChecked_apply]
    unfold rowRunsAux
    by_cases h1 : bgOf cells C y x = cbg
    · have h0 := ih v sx cbg
      simpa [h1] using h0
    · by_cases h2 : cbg = DEFAULT_COLOR
      · subst h2
        have h0 := ih v (x : ℤ) (bgOf cells C y x)
        simpa [h1] using h0
      · cases hE : _updateRectangleChecked cm dims R C v.attributes
            (v.count * INDICES_PER_RECTANGLE) cbg sx (x : ℤ) y with
        | none => simp [h1, h2, hE, writeRunsChecked]
        | some attrs =>
          have h0 := ih ⟨attrs, v.count + 1⟩ (x : ℤ) (bgOf cells C y x)
          simp only [h1, h2, hE, writeRunsChecked, ne_eq, not_false_iff, if_true, if_false]
          simpa [h1, h2, hE, writeRunsChecked] using h0

lemma bridge_rowChecked (cm : ColorManager) (dims : Dims) (R C : ℕ)
    (cells : ℕ → ℕ) (v : IVertices) (y : ℕ) :
    updateBgRowChecked cm dims R C cells v y =
      writeRunsChecked cm dims R C v (rowRuns (bgOf cells C y) y C) := by
  unfold updateBgRowChecked rowRuns
  exact bridge_row_auxChecked cm dims R C cells y (List.range C) v (-1) DEFAULT_COLOR

lemma bridge_rowsChecked (cm : ColorManager) (dims : Dims) (R C : ℕ)
    (cells : ℕ → ℕ) :
    ∀ (ys : List ℕ) (v : IVertices),
    ys.foldlM (updateBgRowChecked cm dims R C cells) v =
      writeRunsChecked cm dims R C v
        (ys.flatMap (fun y => rowRuns (bgOf cells C y) y C)) := by
  intro ys
  induction ys with
  | nil => intro v; simp [writeRunsChecked]
  | cons y ys ih =>
    intro v
    rw [List.foldlM_cons, List.flatMap_cons, writeRunsChecked_append]
    show updateBgRowChecked cm dims R C cells v y >>= _ = _
    rw [bridge_rowChecked]
    cases writeRunsChecked cm dims R C v (rowRuns (bgOf cells C y) y C) with
    | none => simp
    | some v2 => simp [ih]

lemma bridge_gridChecked (cm : ColorManager) (dims : Dims) (R C : ℕ)
    (cells : ℕ → ℕ) (vertices : IVertices) :
    updateBackgroundsChecked cm dims R C cells vertices =
      writeRunsChecked cm dims R C ⟨vertices.attributes, 1⟩ (gridRuns cells R C) := by
  unfold updateBackgroundsChecked gridRuns
  exact bridge_rowsChecked cm dims R C cells (List.range R) ⟨vertices.attributes, 1⟩



lemma _updateRectangleChecked_eq (cm : ColorManager) (dims : Dims) (R C : ℕ)
    (v : IVertices) (r : Run) (hinv : BufInv v) :
    _updateRectangleChecked cm dims R C v.attributes
        (v.count * INDICES_PER_RECTANGLE) r.color r.startX (r.endX : ℤ) r.y =
      _updateRectangle cm dims R C v.attributes
        (v.count * INDICES_PER_RECTANGLE) r.color r.startX (r.endX : ℤ) r.y := by
  obtain ⟨hk, hlen, hmod⟩ := hinv
  simp only [_updateRectangleChecked, _updateRectangle, INDICES_PER_RECTANGLE]
  obtain ⟨hg1, _, _, _, _⟩ := growStep_spec v.attributes (v.count * 8) (R * C * 8)
    (by omega) (by omega) (by omega) hmod (by omega)
  rw [if_pos hg1]

lemma writeRunsChecked_eq (cm : ColorManager) (dims : Dims) (R C : ℕ) :
    ∀ (rs : List Run) (v : IVertices), BufInv v →
    (∀ r ∈ rs, (resolveColor cm r.color).isSome) →
    writeRunsChecked cm dims R C v rs = writeRuns cm dims R C v rs := by
  intro rs
  induction rs with
  | nil => intro v _ _; rfl
  | cons r rs ih =>
    intro v hinv hres
    rw [writeRunsChecked, writeRuns, _updateRectangleChecked_eq cm dims R C v r hinv]
    obtain ⟨attrs, hE, hinv2, _⟩ :=
      _updateRectangle_spec cm dims R C v r (hres r (by simp)) hinv
    rw [hE]
    exact ih ⟨attrs, v.count + 1⟩ hinv2 (fun r2 h2 => hres r2 (by simp [h2]))

/-- Claim C2: during `updateBackgrounds` every rectangle write stores all 8 of
its floats within the bounds of the attribute buffer: the bounds-checked copy
of the whole pass (which fails on any would-be out-of-bounds slot) computes
exactly the same result, and the pass succeeds; and whenever the growth branch
runs, `expandFloat32Array` returns a buffer of at least the requested
`rows*cols*8` floats. -/
theorem updateBackgrounds_writes_in_bounds (cm : ColorManager) (dims : Dims)
    (R C : ℕ) (cells : ℕ → ℕ) (vertices : IVertices)
    (hv : ValidGrid cm cells R C) (hlen : 8 ≤ vertices.attributes.length)
    (hmod : vertices.attributes.length % 8 = 0) :
    updateBackgroundsChecked cm dims R C cells vertices =
      updateBackgrounds cm dims R C cells vertices ∧
    (updateBackgrounds cm dims R C cells vertices).isSome ∧
    ∀ (a : List ℚ) (m : ℕ), m ≤ (expandFloat32Array a m).length := by
  refine ⟨?_, ?_, ?_⟩
  · rw [bridge_gridChecked, bridge_grid]
    exact writeRunsChecked_eq cm dims R C (gridRuns cells R C)
      ⟨vertices.attributes, 1⟩ (BufInv_mk _ _ (le_refl 1) (by omega) hmod)
      (gridRuns_resolvable cm cells R C hv)
  · obtain ⟨v2, hw, _⟩ :=
      updateBackgrounds_spec cm dims R C cells vertices hv hlen hmod
    rw [hw]
    rfl
  · intro a m
    rw [length_expandFloat32Array]
    exact le_max_right _ _

set_option maxRecDepth 8000 in
/-- Witness for C2 at the grid RED, RED, DEFAULT, BLUE. -/
theorem updateBackgrounds_writes_in_bounds_witness :
    ValidGrid cmW cellsB 1 4 ∧
      (updateBackgroundsChecked cmW ⟨10, 20⟩ 1 4 cellsB vW =
        updateBackgrounds cmW ⟨10, 20⟩ 1 4 cellsB vW ∧
      (updateBackgrounds cmW ⟨10, 20⟩ 1 4 cellsB vW).isSome ∧
      ∀ (a : List ℚ) (m : ℕ), m ≤ (expandFloat32Array a m).length) :=
  ⟨by decide,
    updateBackgrounds_writes_in_bounds cmW ⟨10, 20⟩ 1 4 cellsB vW
      (by decide) (by decide) (by decide)⟩


/-! Claim C6: pixel-extent coverage and disjointness of the emitted
rectangles. -/

/-- The half-open pixel extent of a rectangle record. -/
def rectExtent (x y w h : ℚ) : Set (ℚ × ℚ) :=
  {p | x ≤ p.1 ∧ p.1 < x + w ∧ y ≤ p.2 ∧ p.2 < y + h}

/-- The pixel extent of rectangle slot `k` of a buffer, read from its first
four floats. -/
def slotExtent (a : List ℚ) (k : ℕ) : Set (ℚ × ℚ) :=
  rectExtent (a.getD (8 * k) 0) (a.getD (8 * k + 1) 0) (a.getD (8 * k + 2) 0)
    (a.getD (8 * k + 3) 0)

/-- The pixel extent of grid cell `(x, y)`. -/
def cellExtent (cw ch : ℚ) (x y : ℕ) : Set (ℚ × ℚ) :=
  rectExtent ((x : ℚ) * cw) ((y : ℚ) * ch) cw ch

lemma mem_cell_of_interval (cw : ℚ) (hcw : 0 < cw) (s e : ℕ) (q : ℚ)
    (h1 : (s : ℚ) * cw ≤ q) (h2 : q < (e : ℚ) * cw) :
    ∃ t : ℕ, s ≤ t ∧ t < e ∧ (t : ℚ) * cw ≤ q ∧ q < ((t : ℚ) + 1) * cw := by
  have hz1 : (s : ℤ) ≤ ⌊q / cw⌋ := by
    rw [Int.le_floor]
    rw [le_div_iff₀ hcw]
    push_cast
    exact h1
  have hz2 : ⌊q / cw⌋ < (e : ℤ) := by
    rw [Int.floor_lt]
    rw [div_lt_iff₀ hcw]
    push_cast
    exact h2
  have hz0 : 0 ≤ ⌊q / cw⌋ := le_trans (by omega) hz1
  refine ⟨⌊q / cw⌋.toNat, by omega, by omega, ?_, ?_⟩
  · have hfl : (⌊q / cw⌋ : ℚ) ≤ q / cw := Int.floor_le _
    have hcast : ((⌊q / cw⌋.toNat : ℕ) : ℚ) = ((⌊q / cw⌋ : ℤ) : ℚ) := by
      exact_mod_cast Int.toNat_of_nonneg hz0
    rw [hcast]
    rw [← le_div_iff₀ hcw]
    exact hfl
  · have hfl : q / cw < (⌊q / cw⌋ : ℚ) + 1 := Int.lt_floor_add_one _
    have hcast : ((⌊q / cw⌋.toNat : ℕ) : ℚ) = ((⌊q / cw⌋ : ℤ) : ℚ) := by
      exact_mod_cast Int.toNat_of_nonneg hz0
    rw [hcast]
    rw [← div_lt_iff₀ hcw]
    exact hfl

lemma interval_mono (cw : ℚ) (hcw : 0 < cw) (s t : ℕ) (h : s ≤ t) :
    (s : ℚ) * cw ≤ (t : ℚ) * cw := by
  have : (s : ℚ) ≤ (t : ℚ) := by exact_mod_cast h
  nlinarith



/-- Test fixture: one row of three cells colored DEFAULT, RED, RED
(palette codes 256, 1, 1). -/
def cellsA : ℕ → ℕ :=
  fun i => if i = 6 then 1 else if i = 10 then 1 else 256

set_option maxRecDepth 8000 in
set_option maxHeartbeats 1000000 in
/-- Claim C6: the run rectangles emitted by `updateBackgrounds` (slots
`1 .. count-1`) are pairwise disjoint and the union of their pixel extents is
exactly the union of the pixel extents of the cells with non-default color;
and on the 1-row, 3-column grid DEFAULT, RED, RED with cell size 10 by 20
exactly one run rectangle `{x:10, y:0, w:20, h:20, color:RED}` is emitted and
the count is 2. -/
theorem updateBackgrounds_coverage (cm : ColorManager) (dims : Dims) (R C : ℕ)
    (cells : ℕ → ℕ) (vertices : IVertices) (hv : ValidGrid cm cells R C)
    (hlen : 8 ≤ vertices.attributes.length)
    (hmod : vertices.attributes.length % 8 = 0)
    (hcw : 0 < dims.scaledCellWidth) (hch : 0 < dims.scaledCellHeight) :
    ∃ v2, updateBackgrounds cm dims R C cells vertices = some v2 ∧
      {p : ℚ × ℚ | ∃ k, 1 ≤ k ∧ k < v2.count ∧ p ∈ slotExtent v2.attributes k} =
        {p : ℚ × ℚ | ∃ y, y < R ∧ ∃ x, x < C ∧
          bgOf cells C y x ≠ DEFAULT_COLOR ∧
          p ∈ cellExtent dims.scaledCellWidth dims.scaledCellHeight x y} ∧
      (∀ j k, 1 ≤ j → j < k → k < v2.count →
        slotExtent v2.attributes j ∩ slotExtent v2.attributes k = ∅) ∧
      (updateBackgrounds cmW ⟨10, 20⟩ 1 3 cellsA vW).map
          (fun v => (v.count, slotFloats v.attributes 1)) =
        some (2, [10, 0, 20, 20, 1, 0, 0, 1]) := by
  obtain ⟨v2, hw, hcount, ⟨hc2, hl2, hm2⟩, _, _, hslot⟩ :=
    updateBackgrounds_spec cm dims R C cells vertices hv hlen hmod
  have hchar : ∀ k, 1 ≤ k → k < v2.count →
      ∃ (r : Run) (hkr : k - 1 < (gridRuns cells R C).length) (s : ℕ),
        r = (gridRuns cells R C)[k - 1] ∧ r.y < R ∧ r.color ≠ DEFAULT_COLOR ∧
        r.startX = (s : ℤ) ∧ s < r.endX ∧ r.endX ≤ C ∧
        (∀ t, s ≤ t → t < r.endX → bgOf cells C r.y t = r.color) ∧
        slotExtent v2.attributes k =
          rectExtent ((s : ℚ) * dims.scaledCellWidth)
            ((r.y : ℚ) * dims.scaledCellHeight)
            (((r.endX : ℚ) - (s : ℚ)) * dims.scaledCellWidth)
            dims.scaledCellHeight := by
    intro k hk1 hk2
    have hkr : k - 1 < (gridRuns cells R C).length := by omega
    have hmem : (gridRuns cells R C)[k - 1] ∈ gridRuns cells R C :=
      List.getElem_mem hkr
    obtain ⟨hyR, hRS⟩ := gridRuns_sound cells R C _ hmem
    obtain ⟨_, hcn, s, e1, e2, e3, e4⟩ := hRS
    have hsl := hslot (k - 1) hkr
    rw [show 1 + (k - 1) = k from by omega] at hsl
    simp only [slotFloats, encodeRun, List.cons.injEq, and_true] at hsl
    obtain ⟨q0, q1, q2, q3, _, _, _⟩ := hsl
    refine ⟨_, hkr, s, rfl, hyR, hcn, e1, e2, e3, e4, ?_⟩
    unfold slotExtent
    rw [q0, q1, q2, q3, e1]
    push_cast
    ring_nf
  refine ⟨v2, hw, ?_, ?_, ?_⟩
  · ext p
    simp only [Set.mem_setOf_eq]
    constructor
    · rintro ⟨k, hk1, hk2, hp⟩
      obtain ⟨r, hkr, s, hre, hyR, hcn, e1, e2, e3, e4, hext⟩ := hchar k hk1 hk2
      rw [hext] at hp
      obtain ⟨hp1, hp2, hp3, hp4⟩ := hp
      have hsum : (s : ℚ) * dims.scaledCellWidth +
          ((r.endX : ℚ) - (s : ℚ)) * dims.scaledCellWidth =
          (r.endX : ℚ) * dims.scaledCellWidth := by ring
      have hp2b : p.1 < (r.endX : ℚ) * dims.scaledCellWidth := by
        rw [hsum] at hp2
        exact hp2
      obtain ⟨t, ht1, ht2, ht3, ht4⟩ :=
        mem_cell_of_interval dims.scaledCellWidth hcw s r.endX p.1 hp1 hp2b
      refine ⟨r.y, hyR, t, by omega, ?_, ?_⟩
      · rw [e4 t ht1 ht2]
        exact hcn
      · refine ⟨ht3, ?_, hp3, hp4⟩
        have : ((t : ℚ) + 1) * dims.scaledCellWidth =
            (t : ℚ) * dims.scaledCellWidth + dims.scaledCellWidth := by ring
        rw [this] at ht4
        exact ht4
    · rintro ⟨y, hy, x, hx, hbg, hp⟩
      obtain ⟨r, hr, hry, hc1, hc2⟩ := gridRuns_complete cells R C y x hy hx hbg
      obtain ⟨i, hi, hieq⟩ := List.mem_iff_getElem.mp hr
      have hiv : i + 1 < v2.count := by omega
      refine ⟨i + 1, by omega, hiv, ?_⟩
      obtain ⟨r2, hkr, s, hre, hyR, hcn, e1, e2, e3, e4, hext⟩ :=
        hchar (i + 1) (by omega) hiv
      have hrr : r2 = r := by
        rw [hre]
        exact hieq
      subst hrr
      rw [hext]
      obtain ⟨hq1, hq2, hq3, hq4⟩ := hp
      have hsx : s ≤ x := by
        rw [e1] at hc1
        exact_mod_cast hc1
      have hxe : x + 1 ≤ r2.endX := by omega
      refine ⟨?_, ?_, ?_, ?_⟩
      · calc (s : ℚ) * dims.scaledCellWidth
            ≤ (x : ℚ) * dims.scaledCellWidth := interval_mono _ hcw s x hsx
          _ ≤ p.1 := hq1
      · have h1 : p.1 < ((x + 1 : ℕ) : ℚ) * dims.scaledCellWidth := by
          push_cast
          have : ((x : ℚ) + 1) * dims.scaledCellWidth =
              (x : ℚ) * dims.scaledCellWidth + dims.scaledCellWidth := by ring
          rw [this]
          exact hq2
        have h2 : ((x + 1 : ℕ) : ℚ) * dims.scaledCellWidth ≤
            ((r2.endX : ℕ) : ℚ) * dims.scaledCellWidth :=
          interval_mono _ hcw (x + 1) r2.endX hxe
        have hsum : (s : ℚ) * dims.scaledCellWidth +
            ((r2.endX : ℚ) - (s : ℚ)) * dims.scaledCellWidth =
            (r2.endX : ℚ) * dims.scaledCellWidth := by ring
        rw [hsum]
        exact lt_of_lt_of_le h1 h2
      · rw [hry]
        exact hq3
      · rw [hry]
        exact hq4
  · intro j k hj hjk hk
    obtain ⟨rj, hkrj, sj, hrej, hyRj, _, e1j, e2j, e3j, _, hextj⟩ :=
      hchar j hj (by omega)
    obtain ⟨rk, hkrk, sk, hrek, hyRk, _, e1k, e2k, e3k, _, hextk⟩ :=
      hchar k (by omega) hk
    have hpair := gridRuns_pairwise cells R C
    rw [List.pairwise_iff_getElem] at hpair
    have hrel := hpair (j - 1) (k - 1) (by omega) (by omega) (by omega)
    rw [← hrej, ← hrek] at hrel
    rw [hextj, hextk]
    rw [Set.eq_empty_iff_forall_not_mem]
    rintro p ⟨⟨hj1, hj2, hj3, hj4⟩, ⟨hk1, hk2, hk3, hk4⟩⟩
    rcases hrel with hlt | ⟨heq, hle⟩
    · have hy1 : ((rj.y + 1 : ℕ) : ℚ) * dims.scaledCellHeight ≤
          ((rk.y : ℕ) : ℚ) * dims.scaledCellHeight :=
        interval_mono _ hch (rj.y + 1) rk.y (by omega)
      have : p.2 < ((rj.y + 1 : ℕ) : ℚ) * dims.scaledCellHeight := by
        push_cast
        nlinarith [hj4]
      nlinarith [hk3]
    · have hse : rj.endX ≤ sk := by
        rw [e1k] at hle
        exact_mod_cast hle
      have hx1 : ((rj.endX : ℕ) : ℚ) * dims.scaledCellWidth ≤
          ((sk : ℕ) : ℚ) * dims.scaledCellWidth :=
        interval_mono _ hcw rj.endX sk hse
      have hj2b : p.1 < (rj.endX : ℚ) * dims.scaledCellWidth := by
        nlinarith [hj2]
      nlinarith [hk1]
  · with_unfolding_all rfl



set_option maxRecDepth 8000 in
/-- Witness for C6 at the 1-row, 3-column grid DEFAULT, RED, RED with cell
size 10 by 20. -/
theorem updateBackgrounds_coverage_witness :
    ValidGrid cmW cellsA 1 3 ∧ (0 : ℚ) < 10 ∧ (0 : ℚ) < 20 ∧
      (∃ v2, updateBackgrounds cmW ⟨10, 20⟩ 1 3 cellsA vW = some v2 ∧
        {p : ℚ × ℚ | ∃ k, 1 ≤ k ∧ k < v2.count ∧ p ∈ slotExtent v2.attributes k} =
          {p : ℚ × ℚ | ∃ y, y < 1 ∧ ∃ x, x < 3 ∧
            bgOf cellsA 3 y x ≠ DEFAULT_COLOR ∧ p ∈ cellExtent 10 20 x y} ∧
        (∀ j k, 1 ≤ j → j < k → k < v2.count →
          slotExtent v2.attributes j ∩ slotExtent v2.attributes k = ∅) ∧
        (updateBackgrounds cmW ⟨10, 20⟩ 1 3 cellsA vW).map
            (fun v => (v.count, slotFloats v.attributes 1)) =
          some (2, [10, 0, 20, 20, 1, 0, 0, 1])) :=
  ⟨by decide, by norm_num, by norm_num,
    updateBackgrounds_coverage cmW ⟨10, 20⟩ 1 3 cellsA vW
      (by decide) (by decide) (by decide) (by norm_num) (by norm_num)⟩


/-! Claims about the selection geometry builder. -/

lemma fill_zero (a : List ℚ) (v : ℚ) : fill a v 0 = List.replicate a.length v := by
  simp [fill]

lemma getD_replicate_zero (n i : ℕ) : (List.replicate n (0 : ℚ)).getD i 0 = 0 := by
  rcases Nat.lt_or_ge i n with h | h
  · rw [List.getD_eq_getElem _ _ (by simp [h])]
    simp
  · rw [List.getD_eq_default _ _ (by simp [h])]

/-- The position of control vertex `i` as the outline draw computes it: the
stored position plus the inset direction times the outline inset scalar 1. -/
def outlineVertexPos (sel : ISelectionVertices) (i : ℕ) : ℚ × ℚ :=
  (sel.vertices.getD (4 * i) 0 + sel.vertices.getD (4 * i + 2) 0,
   sel.vertices.getD (4 * i + 1) 0 + sel.vertices.getD (4 * i + 3) 0)

/-- Outline segment `k` (the vertex pair at `outlineIndices[2k]` and
`outlineIndices[2k+1]`) is active when its two endpoints differ, i.e. it
draws a visible line rather than a degenerate point. -/
def activeOutlineSegment (sel : ISelectionVertices) (k : ℕ) : Prop :=
  outlineVertexPos sel (sel.outlineIndices.getD (2 * k) 0) ≠
    outlineVertexPos sel (sel.outlineIndices.getD (2 * k + 1) 0)

/-- Claim C3: with `hasSelection = false`, `updateSelection` zero-fills the
whole 40-float vertex buffer and the outline holds no active segment (every
segment is degenerate, since all vertex data is zero). -/
theorem updateSelection_clear (termCols : ℕ) (dims : Dims)
    (model : ISelectionRenderModel) (columnSelectMode : Bool)
    (sel : ISelectionVertices) (hsel : model.hasSelection = false)
    (hlen : sel.vertices.length = 40) :
    (updateSelection termCols dims model columnSelectMode sel).vertices =
      List.replicate 40 (0 : ℚ) ∧
    ∀ k, ¬ activeOutlineSegment (updateSelection termCols dims model columnSelectMode sel) k := by
  have hres : updateSelection termCols dims model columnSelectMode sel =
      { sel with vertices := fill sel.vertices 0 0 } := by
    unfold updateSelection
    simp [hsel]
  have hvert : ({ sel with vertices := fill sel.vertices 0 0 } :
      ISelectionVertices).vertices = List.replicate 40 (0 : ℚ) := by
    show fill sel.vertices 0 0 = _
    rw [fill_zero, hlen]
  rw [hres]
  refine ⟨hvert, ?_⟩
  intro k
  unfold activeOutlineSegment outlineVertexPos
  rw [hvert]
  intro hne
  apply hne
  simp only [getD_replicate_zero]

set_option maxRecDepth 2000 in
/-- Witness for C3: a stale selection state with nonzero vertices and a stale
outline gets fully cleared. -/
theorem updateSelection_clear_witness :
    (⟨false, 0, 5, 0, 3, 1, 2⟩ : ISelectionRenderModel).hasSelection = false ∧
      (List.replicate 39 (7 : ℚ) ++ [3]).length = 40 ∧
      ((updateSelection 10 ⟨1, 1⟩ ⟨false, 0, 5, 0, 3, 1, 2⟩ false
          ⟨List.replicate 39 (7 : ℚ) ++ [3],
            [0, 1, 1, 6, 6, 7, 7, 9, 9, 8, 8, 4, 4, 2, 2, 0]⟩).vertices =
        List.replicate 40 (0 : ℚ) ∧
      ∀ k, ¬ activeOutlineSegment (updateSelection 10 ⟨1, 1⟩
          ⟨false, 0, 5, 0, 3, 1, 2⟩ false
          ⟨List.replicate 39 (7 : ℚ) ++ [3],
            [0, 1, 1, 6, 6, 7, 7, 9, 9, 8, 8, 4, 4, 2, 2, 0]⟩) k) :=
  ⟨rfl, by decide,
    updateSelection_clear 10 ⟨1, 1⟩ ⟨false, 0, 5, 0, 3, 1, 2⟩ false
      ⟨List.replicate 39 (7 : ℚ) ++ [3],
        [0, 1, 1, 6, 6, 7, 7, 9, 9, 8, 8, 4, 4, 2, 2, 0]⟩ rfl (by decide)⟩



/-- Claim C10: in column-select mode with a selection, `updateSelection`
writes only the four rectangle-corner control vertices (x-insets `+1` on the
left corners and `-1` on the right corners, y-inset always `+1`) and
zero-fills the floats of vertices 4 through 9 (buffer indices 16..39), so no
stale staircase geometry survives. -/
theorem updateSelection_columnMode_vertices (termCols : ℕ) (dims : Dims)
    (model : ISelectionRenderModel) (sel : ISelectionVertices)
    (hsel : model.hasSelection = true) (hlen : sel.vertices.length = 40) :
    (updateSelection termCols dims model true sel).vertices =
      [dims.scaledCellWidth * ((if model.viewportStartRow = model.viewportCappedStartRow
          then model.startCol else 0 : ℤ) : ℚ),
        dims.scaledCellHeight * ((model.viewportCappedStartRow : ℤ) : ℚ), 1, 1,
        dims.scaledCellWidth * ((if model.viewportEndRow = model.viewportCappedEndRow
          then model.endCol else (termCols : ℤ)) : ℚ),
        dims.scaledCellHeight * ((model.viewportCappedStartRow : ℤ) : ℚ), -1, 1,
        dims.scaledCellWidth * ((if model.viewportStartRow = model.viewportCappedStartRow
          then model.startCol else 0 : ℤ) : ℚ),
        dims.scaledCellHeight * ((model.viewportCappedEndRow + 1 : ℤ) : ℚ), 1, 1,
        dims.scaledCellWidth * ((if model.viewportEndRow = model.viewportCappedEndRow
          then model.endCol else (termCols : ℤ)) : ℚ),
        dims.scaledCellHeight * ((model.viewportCappedEndRow + 1 : ℤ) : ℚ), -1, 1] ++
      List.replicate 24 (0 : ℚ) := by
  unfold updateSelection
  rw [show (!model.hasSelection) = false from by rw [hsel]; rfl]
  simp only [Bool.false_eq_true, if_false, if_true, if_pos rfl]
  unfold fill typedArraySet
  rw [List.take_left' (by simp), List.drop_left' (by simp)]
  congr 1
  · norm_cast
  · simp [hlen]

set_option maxRecDepth 2000 in
/-- Witness for C10: a column selection over a stale staircase buffer. -/
theorem updateSelection_columnMode_vertices_witness :
    (⟨true, 0, 2, 0, 2, 1, 3⟩ : ISelectionRenderModel).hasSelection = true ∧
      (List.replicate 40 (7 : ℚ)).length = 40 ∧
      (updateSelection 10 ⟨2, 5⟩ ⟨true, 0, 2, 0, 2, 1, 3⟩ true
          ⟨List.replicate 40 (7 : ℚ), List.replicate 16 0⟩).vertices =
        [2 * ((if (0 : ℤ) = 0 then (1 : ℤ) else 0 : ℤ) : ℚ), 5 * ((0 : ℤ) : ℚ), 1, 1,
          2 * ((if (2 : ℤ) = 2 then (3 : ℤ) else (10 : ℤ)) : ℚ), 5 * ((0 : ℤ) : ℚ), -1, 1,
          2 * ((if (0 : ℤ) = 0 then (1 : ℤ) else 0 : ℤ) : ℚ), 5 * ((2 + 1 : ℤ) : ℚ), 1, 1,
          2 * ((if (2 : ℤ) = 2 then (3 : ℤ) else (10 : ℤ)) : ℚ), 5 * ((2 + 1 : ℤ) : ℚ), -1, 1] ++
        List.replicate 24 (0 : ℚ) :=
  ⟨rfl, by decide,
    updateSelection_columnMode_vertices 10 ⟨2, 5⟩ ⟨true, 0, 2, 0, 2, 1, 3⟩
      ⟨List.replicate 40 (7 : ℚ), List.replicate 16 0⟩ rfl (by decide)⟩

/-- Claim C5: in range-select mode with a selection, the 16-entry outline
index array is exactly one of three fixed sequences chosen by a decision
table on the viewport-capped rows and viewport-clipped columns: the single
4-corner loop padded with zeros when the capped rows coincide, two disjoint
4-corner loops when the selection spans exactly two rows whose clipped
columns do not overlap (`startCol > endCol`), and the full staircase
perimeter otherwise. -/
theorem updateSelection_outline_table (termCols : ℕ) (dims : Dims)
    (model : ISelectionRenderModel) (sel : ISelectionVertices)
    (hsel : model.hasSelection = true) (hlen : sel.outlineIndices.length = 16) :
    (updateSelection termCols dims model false sel).outlineIndices =
      (if model.viewportCappedEndRow - model.viewportCappedStartRow = 0 then
        [0, 1, 1, 3, 3, 2, 2, 0, 0, 0, 0, 0, 0, 0, 0, 0]
      else if model.viewportCappedEndRow - model.viewportCappedStartRow = 1 ∧
          (if model.viewportStartRow = model.viewportCappedStartRow
            then model.startCol else 0) >
          (if model.viewportEndRow = model.viewportCappedEndRow
            then model.endCol else (termCols : ℤ)) then
        [0, 1, 1, 3, 3, 2, 2, 0, 5, 7, 7, 9, 9, 8, 8, 5]
      else [0, 1, 1, 6, 6, 7, 7, 9, 9, 8, 8, 4, 4, 2, 2, 0]) := by
  unfold updateSelection
  rw [show (!model.hasSelection) = false from by rw [hsel]; rfl]
  simp only [Bool.false_eq_true, if_false]
  have hset : ∀ l : List ℕ, l.length = 16 →
      typedArraySet sel.outlineIndices l = l := by
    intro l hl
    unfold typedArraySet
    rw [hl, ← hlen, List.drop_length, List.append_nil]
  split_ifs <;> exact hset _ rfl

set_option maxRecDepth 2000 in
/-- Witness for C5: a two-row selection whose clipped columns do not overlap
selects the two-loop sequence. -/
theorem updateSelection_outline_table_witness :
    (⟨true, 1, 2, 1, 2, 5, 2⟩ : ISelectionRenderModel).hasSelection = true ∧
      (List.replicate 16 (0 : ℕ)).length = 16 ∧
      (updateSelection 10 ⟨1, 1⟩ ⟨true, 1, 2, 1, 2, 5, 2⟩ false
          ⟨List.replicate 40 0, List.replicate 16 0⟩).outlineIndices =
        (if (2 : ℤ) - 1 = 0 then
          [0, 1, 1, 3, 3, 2, 2, 0, 0, 0, 0, 0, 0, 0, 0, 0]
        else if (2 : ℤ) - 1 = 1 ∧
            (if (1 : ℤ) = 1 then (5 : ℤ) else 0) >
            (if (2 : ℤ) = 2 then (2 : ℤ) else (10 : ℤ)) then
          [0, 1, 1, 3, 3, 2, 2, 0, 5, 7, 7, 9, 9, 8, 8, 5]
        else [0, 1, 1, 6, 6, 7, 7, 9, 9, 8, 8, 4, 4, 2, 2, 0]) :=
  ⟨rfl, by decide,
    updateSelection_outline_table 10 ⟨1, 1⟩ ⟨true, 1, 2, 1, 2, 5, 2⟩
      ⟨List.replicate 40 0, List.replicate 16 0⟩ rfl (by decide)⟩



/-- Test fixture for C4: a range selection whose capped start and end rows
coincide (row 0) while the span's end row (5) continues below the viewport,
with raw `endCol = 3` and 10 viewport columns. -/
def m0 : ISelectionRenderModel := ⟨true, 0, 5, 0, 0, 2, 3⟩

/-- Test fixture: a blank selection vertex state. -/
def sel0 : ISelectionVertices := ⟨List.replicate 40 0, List.replicate 16 0⟩

/-- Claim C4, counterexample: at `m0` the top row's right-edge x coordinate
(vertex 1, buffer index 4) is `w * model.endCol = 3`, not
`w * viewportClippedEndCol = 10` as the claim states (the clipped end column
is `termCols = 10` here because the span's end row continues below the
viewport). -/
theorem updateSelection_startRowEndCol_counterexample :
    (updateSelection 10 ⟨1, 1⟩ m0 false sel0).vertices.getD 4 0 = 3 ∧
    ¬ ((updateSelection 10 ⟨1, 1⟩ m0 false sel0).vertices.getD 4 0 =
        1 * ((if m0.viewportEndRow = m0.viewportCappedEndRow then m0.endCol
          else (10 : ℤ)) : ℚ)) := by
  have h1 : (updateSelection 10 ⟨1, 1⟩ m0 false sel0).vertices.getD 4 0 = 3 := by
    with_unfolding_all rfl
  have h2 : ((if m0.viewportEndRow = m0.viewportCappedEndRow then m0.endCol
      else (10 : ℤ)) : ℚ) = 10 := by
    norm_num [m0]
  refine ⟨h1, ?_⟩
  rw [h1, h2]
  norm_num

/-- Claim C4, amended: in range-select mode with a selection, the x coordinate
of the top row's right edge (vertex 1, buffer index 4) is
`w * startRowEndCol`, where `startRowEndCol` is the span's raw `endCol`
(`model.endCol`, without viewport clipping) when the capped start row equals
the capped end row, and `viewportCols` otherwise. -/
theorem updateSelection_startRowEndCol (termCols : ℕ) (dims : Dims)
    (model : ISelectionRenderModel) (sel : ISelectionVertices)
    (hsel : model.hasSelection = true) :
    (updateSelection termCols dims model false sel).vertices.getD 4 0 =
      dims.scaledCellWidth *
        ((if model.viewportCappedStartRow = model.viewportCappedEndRow
          then model.endCol else (termCols : ℤ)) : ℚ) := by
  unfold updateSelection
  rw [show (!model.hasSelection) = false from by rw [hsel]; rfl]
  simp only [Bool.false_eq_true, if_false]
  unfold typedArraySet
  rw [List.getD_append _ _ _ 4 (by simp)]
  norm_cast

set_option maxRecDepth 2000 in
/-- Witness for the amended C4 at `m0`: the capped rows coincide, so the edge
is the raw `endCol = 3`. -/
theorem updateSelection_startRowEndCol_witness :
    m0.hasSelection = true ∧
      (updateSelection 10 ⟨1, 1⟩ m0 false sel0).vertices.getD 4 0 =
        1 * ((if m0.viewportCappedStartRow = m0.viewportCappedEndRow
          then m0.endCol else (10 : ℤ)) : ℚ) :=
  ⟨rfl, updateSelection_startRowEndCol 10 ⟨1, 1⟩ m0 sel0 rfl⟩


end RectangleRenderer
